import Mathlib

/-!
# PWM driver (`bsp/drivers/PWM.cpp`, `PWM.hpp`)

A shallow embedding of the PWM channel driver and proofs about it.

* `F32` : the arithmetic of the C++ type `float` (IEEE-754 binary32, round to
  nearest, ties to even) on the finite values, carried in `ℚ`.  The conversion
  `static_cast<uint32_t>(float)` is undefined in C++ when the truncated value
  does not fit `uint32_t`; every function that converts takes a parameter
  `undef` that stands for what the platform produces there.  A theorem with a
  parameter `undef` holds for every such platform; the evaluations at one
  input take `F32.castWrapping` (the low 32 bits) or `F32.castSaturating`,
  and where the input reaches no out-of-range conversion the choice does not
  matter (`F32.toUInt32_congr`).
* `TIM`, `TimerAccess` : the timer collaborator.  `TIM.hpp` is not part of the
  sources, so a `TIM` value holds what the timer answers when it is asked
  (period, bus clock, the result of its `setCCR`, ...), and every operation of
  the driver returns the list of accesses it makes to the timer, in program
  order.  An empty list means that no register was touched.
* `PWM` : the driver object, one Lean function per member function.
-/

/-! ## Single-precision arithmetic -/

namespace F32

/-- Binary logarithm of a natural number, rounded down (`0` at `0`), by repeated halving. -/
def log2Aux : ℕ → ℕ → ℕ
  | 0, _ => 0
  | fuel + 1, n => if n < 2 then 0 else log2Aux fuel (n / 2) + 1

/-- Binary logarithm of a natural number, rounded down: `n` halvings are always enough. -/
def log2 (n : ℕ) : ℕ := log2Aux n n

/-- Binary exponent of a non-zero rational: the `e` with `2 ^ e ≤ |q| < 2 ^ (e + 1)`. -/
def ilog2 (q : ℚ) : ℤ :=
  if (2 : ℚ) ^ ((log2 q.num.natAbs : ℤ) - (log2 q.den : ℤ)) ≤ |q| then
    (log2 q.num.natAbs : ℤ) - (log2 q.den : ℤ)
  else (log2 q.num.natAbs : ℤ) - (log2 q.den : ℤ) - 1

/-- Nearest integer, a tie going to the even neighbour. -/
def roundHalfEven (x : ℚ) : ℤ :=
  if x - ⌊x⌋ < 1 / 2 then ⌊x⌋
  else if 1 / 2 < x - ⌊x⌋ then ⌊x⌋ + 1
  else if ⌊x⌋ % 2 = 0 then ⌊x⌋ else ⌊x⌋ + 1

/-- Rounding of an exact result to the nearest value with a 24-bit significand, ties to even:
the result of every binary32 operation.  The exponent range is not bounded: in this driver a
result beyond the largest finite `float` only ever reaches a comparison with `0` or `1e9` or the
conversion `toUInt32`, where it is out of range like an infinity, and a result below the
smallest normal `float` is always truncated to `0`. -/
def rnd (q : ℚ) : ℚ :=
  if q = 0 then 0
  else (roundHalfEven (q / 2 ^ (ilog2 q - 23)) : ℚ) * 2 ^ (ilog2 q - 23)

/-- The values a `float` can hold exactly. -/
def representable (q : ℚ) : Prop := rnd q = q

instance (q : ℚ) : Decidable (representable q) := by
  unfold representable
  infer_instance

/-- Product of two `float`s: `a * b`. -/
def mul (a b : ℚ) : ℚ := rnd (a * b)

/-- Quotient of two `float`s: `a / b`. -/
def div (a b : ℚ) : ℚ := rnd (a / b)

/-- Conversion of a `uint32_t` operand to `float` (the usual arithmetic conversion). -/
def ofUInt32 (n : ℕ) : ℚ := rnd n

/-- Conversion `static_cast<uint32_t>(x)`: truncation toward zero when the truncated value fits
`uint32_t`, that is for `-1 < x < 2^32`.  Elsewhere the conversion is undefined in C++: the
result is then whatever the platform produces, `undef x` reduced to 32 bits. -/
def toUInt32 (undef : ℚ → ℕ) (x : ℚ) : ℕ :=
  if -1 < x ∧ x < 4294967296 then ⌊x⌋₊ else undef x % 4294967296

/-- An out-of-range conversion that saturates, as the conversion instruction of a Cortex-M
does: `0` for a negative value and `2^32 - 1` for a value of `2^32` or more. -/
def castSaturating (x : ℚ) : ℕ := if x < 0 then 0 else 4294967295

/-- An out-of-range conversion that keeps the low 32 bits of the value truncated toward zero,
as a conversion through a 64-bit integer does: `2^32` gives `0`. -/
def castWrapping (x : ℚ) : ℕ := ((if 0 ≤ x then ⌊x⌋ else ⌈x⌉) % 4294967296).toNat

end F32

/-! ## The collaborators -/

/-- The members of `ErrorCode` (`SystemTypes.hpp`) that `PWM.cpp` uses. -/
inductive ErrorCode where
  | OK
  | Fail
  | InvalidParam
  deriving DecidableEq

/-- The channel selector `TIM::TIM_Channel`.  `PWM.cpp` names `CH1` .. `CH6`; every other
enumerator or value lands in the `default:` branches and is `other`. -/
inductive TIM_Channel where
  | CH1
  | CH2
  | CH3
  | CH4
  | CH5
  | CH6
  | other (raw : ℕ)
  deriving DecidableEq

/-- One access of the driver to its timer: a call of a `TIM` member function or HAL primitive,
or the direct store `_tim->getHALHandle()->Instance->CCRx = value`. -/
inductive TimerAccess where
  | Init
  | setAutoFrequency (hz : ℚ)
  | setPSR (value : ℕ)
  | setARR (value : ℕ)
  | setCCR (value : ℕ) (channel : TIM_Channel)
  | storeCCR (channel : TIM_Channel) (value : ℕ)
  | HAL_TIM_PWM_Start (channel : TIM_Channel)
  | HAL_TIM_PWM_Stop (channel : TIM_Channel)
  deriving DecidableEq

/-- What the timer (`TIM.hpp`, not part of the sources) answers when the driver asks it:
the values of its getters and the results of the calls whose result the driver reads. -/
structure TIM where
  /-- Result of `getPeriod()`, a `uint32_t`. -/
  getPeriod : ℕ
  /-- Result of `getBusClockFrequency()`, a `uint32_t`, in Hz. -/
  getBusClockFrequency : ℕ
  /-- Result of `setAutoFrequency(hz)`. -/
  setAutoFrequency : ℚ → ErrorCode
  /-- Result of `setCCR(value, channel)`. -/
  setCCR : ℕ → TIM_Channel → ErrorCode
  /-- Whether `HAL_TIM_PWM_Start(handle, channel)` returns `HAL_OK`. -/
  HAL_TIM_PWM_Start : TIM_Channel → Bool
  /-- Whether `HAL_TIM_PWM_Stop(handle, channel)` returns `HAL_OK`. -/
  HAL_TIM_PWM_Stop : TIM_Channel → Bool

/-- Modelled from the spec: `UnitConverter::Time::s2ns` (`UnitConverter.hpp`) is not part of the
sources; the spec calls it a seconds-to-nanoseconds conversion. -/
def UnitConverter.Time.s2ns (s : ℕ) : ℕ := s * 1000000000

/-- A timer with the given period and bus clock whose calls all succeed; the timer of the
concrete evaluations below. -/
def TIM.succeeding (period bus_clock_hz : ℕ) : TIM where
  getPeriod := period
  getBusClockFrequency := bus_clock_hz
  setAutoFrequency := fun _ => ErrorCode.OK
  setCCR := fun _ _ => ErrorCode.OK
  HAL_TIM_PWM_Start := fun _ => true
  HAL_TIM_PWM_Stop := fun _ => true

/-! ## The driver -/

/-- The data members of `class PWM`; `_ccr_ptr` is `none` until `setCCRptr` binds it, and then
names the channel whose compare register it points to. -/
structure PWM where
  _tim : TIM
  _channel : TIM_Channel
  _ccr_ptr : Option TIM_Channel

namespace PWM

/-- The constructor `PWM::PWM(TIM *tim, PWM_Channel channel)` (PWM.cpp 4-5): it sets `_tim` and
`_channel` and leaves `_ccr_ptr` unbound. -/
def construct (tim : TIM) (channel : TIM_Channel) : PWM :=
  { _tim := tim, _channel := channel, _ccr_ptr := none }

/-- Whether the channel is one of `CH1` .. `CH6`, the cases of the two `switch` statements. -/
def supported : TIM_Channel → Bool
  | TIM_Channel.CH1 => true
  | TIM_Channel.CH2 => true
  | TIM_Channel.CH3 => true
  | TIM_Channel.CH4 => true
  | TIM_Channel.CH5 => true
  | TIM_Channel.CH6 => true
  | TIM_Channel.other _ => false

/-- `PWM::setCCRptr` (PWM.cpp 145-176): the new object and the result. -/
def setCCRptr (self : PWM) : ErrorCode × PWM :=
  match self._channel with
  | TIM_Channel.CH1 => (ErrorCode.OK, { self with _ccr_ptr := some TIM_Channel.CH1 })
  | TIM_Channel.CH2 => (ErrorCode.OK, { self with _ccr_ptr := some TIM_Channel.CH2 })
  | TIM_Channel.CH3 => (ErrorCode.OK, { self with _ccr_ptr := some TIM_Channel.CH3 })
  | TIM_Channel.CH4 => (ErrorCode.OK, { self with _ccr_ptr := some TIM_Channel.CH4 })
  | TIM_Channel.CH5 => (ErrorCode.OK, { self with _ccr_ptr := some TIM_Channel.CH5 })
  | TIM_Channel.CH6 => (ErrorCode.OK, { self with _ccr_ptr := some TIM_Channel.CH6 })
  | TIM_Channel.other _ => (ErrorCode.Fail, self)

/-- `PWM::Init` (PWM.cpp 8-13): calls `_tim->Init()` and `setCCRptr()`, drops both results and
returns `OK`. -/
def Init (self : PWM) : ErrorCode × PWM × List TimerAccess :=
  (ErrorCode.OK, (setCCRptr self).2, [TimerAccess.Init])

/-- `PWM::setDutyCycle` (PWM.cpp 27-73): the result and the accesses to the timer. -/
def setDutyCycle (undef : ℚ → ℕ) (self : PWM) (duty_cycle : ℚ) : ErrorCode × List TimerAccess :=
  if duty_cycle < 0 then (ErrorCode.Fail, [])
  else
    let duty_cycle := if 100 < duty_cycle then 100 else duty_cycle
    let period := self._tim.getPeriod
    if period = 0 then (ErrorCode.Fail, [])
    else
      let ccr := F32.toUInt32 undef (F32.mul (F32.div duty_cycle 100) (F32.ofUInt32 period))
      let ccr := if ccr > period then period else ccr
      match self._channel with
      | TIM_Channel.CH1 => (ErrorCode.OK, [TimerAccess.storeCCR TIM_Channel.CH1 ccr])
      | TIM_Channel.CH2 => (ErrorCode.OK, [TimerAccess.storeCCR TIM_Channel.CH2 ccr])
      | TIM_Channel.CH3 => (ErrorCode.OK, [TimerAccess.storeCCR TIM_Channel.CH3 ccr])
      | TIM_Channel.CH4 => (ErrorCode.OK, [TimerAccess.storeCCR TIM_Channel.CH4 ccr])
      | TIM_Channel.CH5 => (ErrorCode.OK, [TimerAccess.storeCCR TIM_Channel.CH5 ccr])
      | TIM_Channel.CH6 => (ErrorCode.OK, [TimerAccess.storeCCR TIM_Channel.CH6 ccr])
      | TIM_Channel.other _ => (ErrorCode.Fail, [])

/-- `PWM::setAutoFrequency` (PWM.cpp 75-78). -/
def setAutoFrequency (self : PWM) (hz : ℚ) : ErrorCode × List TimerAccess :=
  (self._tim.setAutoFrequency hz, [TimerAccess.setAutoFrequency hz])

/-- The reload candidate of one iteration (PWM.cpp 97):
`static_cast<uint32_t>((bus_clock_hz * us) / (psc * 1000000U))`, the product `psc * 1000000U`
taken in `uint32_t`, the other operations in `float`. -/
def arr_val (undef : ℚ → ℕ) (bus_clock_hz : ℕ) (us : ℚ) (psc : ℕ) : ℕ :=
  F32.toUInt32 undef
    (F32.div (F32.mul (F32.ofUInt32 bus_clock_hz) us)
      (F32.ofUInt32 (psc * 1000000 % 4294967296)))

/-- The reload candidate as the spec words it, `floor(bus_clock_hz * us / (psc * 1_000_000))`,
evaluated in `float` like `arr_val`, but with the product `psc * 1_000_000` as the integer it is
(not reduced modulo `2^32`). -/
def arr_candidate (undef : ℚ → ℕ) (bus_clock_hz : ℕ) (us : ℚ) (psc : ℕ) : ℕ :=
  F32.toUInt32 undef
    (F32.div (F32.mul (F32.ofUInt32 bus_clock_hz) us) (F32.ofUInt32 (psc * 1000000)))

/-- The `for` loop of `PWM::setAutoPulseWidth` (PWM.cpp 95-111) from `psc` on, `n` counting the
iterations that are left (`psc = 1 .. 65535`, so `n = 65536 - psc`). -/
def setAutoPulseWidthLoop (undef : ℚ → ℕ) (self : PWM) (bus_clock_hz : ℕ) (us : ℚ) :
    ℕ → ℕ → ErrorCode × List TimerAccess
  | 0, _ => (ErrorCode.Fail, [])
  | n + 1, psc =>
    if arr_val undef bus_clock_hz us psc > 65535 then
      setAutoPulseWidthLoop undef self bus_clock_hz us n (psc + 1)
    else
      (self._tim.setCCR (arr_val undef bus_clock_hz us psc / 2) self._channel,
        [TimerAccess.setPSR (psc - 1),
         TimerAccess.setARR (arr_val undef bus_clock_hz us psc),
         TimerAccess.setCCR (arr_val undef bus_clock_hz us psc / 2) self._channel])

/-- `PWM::setAutoPulseWidth` (PWM.cpp 86-112).  `1 / bus_clock_hz` is a division of unsigned
integers; it is undefined in C++ for `bus_clock_hz = 0`, where this definition has `1 / 0 = 0`. -/
def setAutoPulseWidth (undef : ℚ → ℕ) (self : PWM) (us : ℚ) : ErrorCode × List TimerAccess :=
  let bus_clock_hz := self._tim.getBusClockFrequency
  if F32.mul us 1000 < (UnitConverter.Time.s2ns (1 / bus_clock_hz) : ℚ) then
    (ErrorCode.InvalidParam, [])
  else setAutoPulseWidthLoop undef self bus_clock_hz us 65535 1

/-- `PWM::setARR` (PWM.cpp 114-117); the parameter is a `uint32_t`. -/
def setARR (_self : PWM) (arr : ℕ) : ErrorCode × List TimerAccess :=
  (ErrorCode.OK, [TimerAccess.setARR (arr % 4294967296)])

/-- `PWM::setCCR` (PWM.cpp 119-122); the parameter is a `uint32_t`. -/
def setCCR (self : PWM) (ccr : ℕ) : ErrorCode × List TimerAccess :=
  (ErrorCode.OK, [TimerAccess.setCCR (ccr % 4294967296) self._channel])

/-- `PWM::setPSR` (PWM.cpp 124-127); the parameter is a `uint16_t`. -/
def setPSR (_self : PWM) (psr : ℕ) : ErrorCode × List TimerAccess :=
  (ErrorCode.OK, [TimerAccess.setPSR (psr % 65536)])

/-- `PWM::Enable` (PWM.cpp 129-135). -/
def Enable (self : PWM) : ErrorCode × List TimerAccess :=
  (if self._tim.HAL_TIM_PWM_Start self._channel then ErrorCode.OK else ErrorCode.Fail,
    [TimerAccess.HAL_TIM_PWM_Start self._channel])

/-- `PWM::Disable` (PWM.cpp 137-143). -/
def Disable (self : PWM) : ErrorCode × List TimerAccess :=
  (if self._tim.HAL_TIM_PWM_Stop self._channel then ErrorCode.OK else ErrorCode.Fail,
    [TimerAccess.HAL_TIM_PWM_Stop self._channel])

end PWM

/-! ## The registers behind the accesses -/

/-- A timer like `TIM.succeeding`, except that its `setCCR` reports `Fail` for every value and
channel. -/
def TIM.failingSetCCR (period bus_clock_hz : ℕ) : TIM where
  getPeriod := period
  getBusClockFrequency := bus_clock_hz
  setAutoFrequency := fun _ => ErrorCode.OK
  setCCR := fun _ _ => ErrorCode.Fail
  HAL_TIM_PWM_Start := fun _ => true
  HAL_TIM_PWM_Stop := fun _ => true

/-- Modelled from the spec: the state of the timer peripheral that the spec names (the register
layout is not part of the sources): the prescaler register, the reload register, the compare
register of each channel and whether the output of each channel is running. -/
structure TimerRegs where
  PSC : ℕ
  ARR : ℕ
  CCR : TIM_Channel → ℕ
  enabled : TIM_Channel → Bool

namespace TimerRegs

/-- Modelled from the spec: the member functions of `TIM` (`TIM.hpp`) and the HAL primitives
`HAL_TIM_PWM_Start` and `HAL_TIM_PWM_Stop` are not part of the sources.  This is the effect of
one access on the registers, `none` where the spec leaves the effect to the timer.  The store
`Instance->CCRx = value` of `PWM.cpp` writes that compare register; `setPSR`, `setARR` and a
`setCCR` that reports `OK` are the spec's setters of the prescaler, the reload and the
channel's compare register; a channel-start or channel-stop primitive that reports success
leaves the channel running or stopped.  The effect of `Init`, of `setAutoFrequency` and of a
call that reports a failure is not modelled. -/
def exec (tim : TIM) (r : TimerRegs) : TimerAccess → Option TimerRegs
  | TimerAccess.Init => none
  | TimerAccess.setAutoFrequency _ => none
  | TimerAccess.setPSR value => some { r with PSC := value }
  | TimerAccess.setARR value => some { r with ARR := value }
  | TimerAccess.setCCR value channel =>
    if tim.setCCR value channel = ErrorCode.OK then
      some { r with CCR := Function.update r.CCR channel value }
    else none
  | TimerAccess.storeCCR channel value =>
    some { r with CCR := Function.update r.CCR channel value }
  | TimerAccess.HAL_TIM_PWM_Start channel =>
    if tim.HAL_TIM_PWM_Start channel then
      some { r with enabled := Function.update r.enabled channel true }
    else none
  | TimerAccess.HAL_TIM_PWM_Stop channel =>
    if tim.HAL_TIM_PWM_Stop channel then
      some { r with enabled := Function.update r.enabled channel false }
    else none

/-- The registers after a list of accesses, made in order. -/
def run (tim : TIM) : List TimerAccess → TimerRegs → Option TimerRegs
  | [], r => some r
  | a :: rest, r => (exec tim r a).bind (run tim rest)

end TimerRegs

/-! ## Lemmas on the single-precision arithmetic -/

namespace F32

theorem log2Aux_spec (fuel : ℕ) : ∀ n : ℕ, 0 < n → n ≤ fuel →
    2 ^ log2Aux fuel n ≤ n ∧ n < 2 ^ (log2Aux fuel n + 1) := by
  induction fuel with
  | zero => intro n h0 h1; omega
  | succ k ih =>
    intro n h0 h1
    unfold log2Aux
    by_cases h2 : n < 2
    · simp only [h2, if_true]
      constructor
      · simpa using h0
      · simpa using h2
    · simp only [h2, if_false]
      have hn : 0 < n / 2 := by omega
      have hk : n / 2 ≤ k := by omega
      obtain ⟨ha, hb⟩ := ih (n / 2) hn hk
      constructor
      · rw [pow_succ]; omega
      · rw [pow_succ]; omega

theorem log2_spec (n : ℕ) (h : 0 < n) : 2 ^ log2 n ≤ n ∧ n < 2 ^ (log2 n + 1) :=
  log2Aux_spec n n h le_rfl

theorem ilog2_spec (q : ℚ) (hq : q ≠ 0) :
    (2 : ℚ) ^ ilog2 q ≤ |q| ∧ |q| < (2 : ℚ) ^ (ilog2 q + 1) := by
  have hnum : 0 < q.num.natAbs := Int.natAbs_pos.mpr (Rat.num_ne_zero.mpr hq)
  have hden : 0 < q.den := q.den_pos
  obtain ⟨ha, ha'⟩ := log2_spec _ hnum
  obtain ⟨hb, hb'⟩ := log2_spec _ hden
  have habs : |q| = (q.num.natAbs : ℚ) / (q.den : ℚ) := by
    conv_lhs => rw [← Rat.num_div_den q]
    rw [abs_div, Nat.abs_cast, Nat.cast_natAbs, Int.cast_abs]
  have hdq : (0 : ℚ) < q.den := by exact_mod_cast hden
  have ha1 : ((2 : ℚ) ^ log2 q.num.natAbs) ≤ (q.num.natAbs : ℚ) := by exact_mod_cast ha
  have ha2 : (q.num.natAbs : ℚ) < (2 : ℚ) ^ (log2 q.num.natAbs + 1) := by exact_mod_cast ha'
  have hb1 : ((2 : ℚ) ^ log2 q.den) ≤ (q.den : ℚ) := by exact_mod_cast hb
  have hb2 : (q.den : ℚ) < (2 : ℚ) ^ (log2 q.den + 1) := by exact_mod_cast hb'
  have h2 : (0 : ℚ) < 2 := by norm_num
  have hlow : (2 : ℚ) ^ ((log2 q.num.natAbs : ℤ) - (log2 q.den : ℤ) - 1) ≤ |q| := by
    rw [habs, le_div_iff₀ hdq]
    have : (2 : ℚ) ^ ((log2 q.num.natAbs : ℤ) - (log2 q.den : ℤ) - 1) * (2 : ℚ) ^ (log2 q.den + 1)
        = (2 : ℚ) ^ log2 q.num.natAbs := by
      rw [← zpow_natCast (2 : ℚ) (log2 q.den + 1), ← zpow_add₀ (by norm_num : (2 : ℚ) ≠ 0),
        ← zpow_natCast]
      congr 1
      push_cast
      ring
    calc (2 : ℚ) ^ ((log2 q.num.natAbs : ℤ) - (log2 q.den : ℤ) - 1) * (q.den : ℚ)
        ≤ (2 : ℚ) ^ ((log2 q.num.natAbs : ℤ) - (log2 q.den : ℤ) - 1) * (2 : ℚ) ^ (log2 q.den + 1) :=
          mul_le_mul_of_nonneg_left hb2.le (zpow_nonneg h2.le _)
      _ = (2 : ℚ) ^ log2 q.num.natAbs := this
      _ ≤ _ := ha1
  have hhigh : |q| < (2 : ℚ) ^ ((log2 q.num.natAbs : ℤ) - (log2 q.den : ℤ) + 1) := by
    rw [habs, div_lt_iff₀ hdq]
    have : (2 : ℚ) ^ ((log2 q.num.natAbs : ℤ) - (log2 q.den : ℤ) + 1) * (2 : ℚ) ^ (log2 q.den)
        = (2 : ℚ) ^ (log2 q.num.natAbs + 1) := by
      rw [← zpow_natCast (2 : ℚ) (log2 q.den), ← zpow_add₀ (by norm_num : (2 : ℚ) ≠ 0),
        ← zpow_natCast]
      congr 1
      push_cast
      ring
    calc (q.num.natAbs : ℚ) < (2 : ℚ) ^ (log2 q.num.natAbs + 1) := ha2
      _ = (2 : ℚ) ^ ((log2 q.num.natAbs : ℤ) - (log2 q.den : ℤ) + 1) * (2 : ℚ) ^ (log2 q.den) :=
          this.symm
      _ ≤ _ := mul_le_mul_of_nonneg_left hb1 (zpow_nonneg h2.le _)
  unfold ilog2
  split_ifs with h
  · exact ⟨h, hhigh⟩
  · refine ⟨hlow, ?_⟩
    rw [sub_add_cancel]
    exact lt_of_not_le h

theorem ilog2_unique (q : ℚ) (e : ℤ) (h1 : (2 : ℚ) ^ e ≤ |q|) (h2 : |q| < (2 : ℚ) ^ (e + 1)) :
    ilog2 q = e := by
  have hq : q ≠ 0 := by
    rintro rfl
    have : (0 : ℚ) < 2 ^ e := zpow_pos (by norm_num) e
    simp at h1
    linarith
  obtain ⟨h3, h4⟩ := ilog2_spec q hq
  have h12 : (1 : ℚ) < 2 := by norm_num
  have a : e < ilog2 q + 1 := (zpow_lt_zpow_iff_right₀ h12).mp (lt_of_le_of_lt h1 h4)
  have b : ilog2 q < e + 1 := (zpow_lt_zpow_iff_right₀ h12).mp (lt_of_le_of_lt h3 h2)
  omega

theorem ilog2_mono (p q : ℚ) (hp : 0 < p) (hpq : p ≤ q) : ilog2 p ≤ ilog2 q := by
  obtain ⟨h1, _⟩ := ilog2_spec p hp.ne'
  obtain ⟨_, h4⟩ := ilog2_spec q (hp.trans_le hpq).ne'
  rw [abs_of_pos hp] at h1
  rw [abs_of_pos (hp.trans_le hpq)] at h4
  have h12 : (1 : ℚ) < 2 := by norm_num
  have : ilog2 p < ilog2 q + 1 :=
    (zpow_lt_zpow_iff_right₀ h12).mp (lt_of_le_of_lt (h1.trans hpq) h4)
  omega

theorem roundHalfEven_intCast (n : ℤ) : roundHalfEven (n : ℚ) = n := by
  unfold roundHalfEven
  simp

theorem roundHalfEven_mono {x y : ℚ} (h : x ≤ y) : roundHalfEven x ≤ roundHalfEven y := by
  have hf : ⌊x⌋ ≤ ⌊y⌋ := Int.floor_mono h
  have hx0 := Int.floor_le x
  have hx1 := Int.lt_floor_add_one x
  have hy0 := Int.floor_le y
  have hy1 := Int.lt_floor_add_one y
  rcases hf.lt_or_eq with hlt | heq
  · have hx : roundHalfEven x ≤ ⌊x⌋ + 1 := by
      unfold roundHalfEven; split_ifs <;> omega
    have hy : ⌊y⌋ ≤ roundHalfEven y := by
      unfold roundHalfEven; split_ifs <;> omega
    omega
  · unfold roundHalfEven
    rw [← heq]
    have hxy : x - ⌊x⌋ ≤ y - ⌊x⌋ := by linarith
    split_ifs <;> first | omega | (exfalso; linarith)

theorem roundHalfEven_near (x : ℚ) : |(roundHalfEven x : ℚ) - x| ≤ 1 / 2 := by
  have hx0 := Int.floor_le x
  have hx1 := Int.lt_floor_add_one x
  unfold roundHalfEven
  rw [abs_le]
  split_ifs <;> push_cast <;> constructor <;> linarith

theorem le_roundHalfEven {n : ℤ} {x : ℚ} (h : (n : ℚ) ≤ x) : n ≤ roundHalfEven x := by
  have := roundHalfEven_mono h
  rwa [roundHalfEven_intCast] at this

theorem roundHalfEven_le {n : ℤ} {x : ℚ} (h : x ≤ (n : ℚ)) : roundHalfEven x ≤ n := by
  have := roundHalfEven_mono h
  rwa [roundHalfEven_intCast] at this

theorem roundHalfEven_neg (x : ℚ) : roundHalfEven (-x) = -roundHalfEven x := by
  by_cases hx : (⌊x⌋ : ℚ) = x
  · rw [← hx, ← Int.cast_neg, roundHalfEven_intCast, roundHalfEven_intCast]
  · have hx0 := Int.floor_le x
    have hx1 := Int.lt_floor_add_one x
    have hlt : (⌊x⌋ : ℚ) < x := lt_of_le_of_ne hx0 hx
    have hfl : ⌊-x⌋ = -⌊x⌋ - 1 := by
      rw [Int.floor_eq_iff]
      push_cast
      constructor <;> linarith
    unfold roundHalfEven
    rw [hfl]
    push_cast
    split_ifs <;> first | omega | (exfalso; linarith)

theorem rnd_zero : rnd 0 = 0 := by
  simp [rnd]

theorem ilog2_neg (q : ℚ) : ilog2 (-q) = ilog2 q := by
  unfold ilog2
  simp

theorem rnd_neg (q : ℚ) : rnd (-q) = -rnd q := by
  unfold rnd
  by_cases hq : q = 0
  · simp [hq]
  · have hq' : -q ≠ 0 := neg_ne_zero.mpr hq
    simp only [hq, hq', if_false, ilog2_neg, neg_div, roundHalfEven_neg]
    push_cast
    ring

/-- The scaled significand of a positive value lies in the binade `[2^23, 2^24)`. -/
theorem scaled_bounds (q : ℚ) (hq : 0 < q) :
    (8388608 : ℚ) ≤ q / 2 ^ (ilog2 q - 23) ∧ q / 2 ^ (ilog2 q - 23) < (16777216 : ℚ) := by
  obtain ⟨h1, h2⟩ := ilog2_spec q hq.ne'
  rw [abs_of_pos hq] at h1 h2
  have hk : (0 : ℚ) < 2 ^ (ilog2 q - 23) := zpow_pos (by norm_num) _
  have e1 : (2 : ℚ) ^ ilog2 q = 8388608 * 2 ^ (ilog2 q - 23) := by
    have : (8388608 : ℚ) = 2 ^ (23 : ℤ) := by norm_num
    rw [this, ← zpow_add₀ (by norm_num : (2 : ℚ) ≠ 0)]
    congr 1
    ring
  have e2 : (2 : ℚ) ^ (ilog2 q + 1) = 16777216 * 2 ^ (ilog2 q - 23) := by
    have : (16777216 : ℚ) = 2 ^ (24 : ℤ) := by norm_num
    rw [this, ← zpow_add₀ (by norm_num : (2 : ℚ) ≠ 0)]
    congr 1
    ring
  constructor
  · rw [le_div_iff₀ hk, ← e1]
    exact h1
  · rw [div_lt_iff₀ hk, ← e2]
    exact h2

theorem rnd_bounds (q : ℚ) (hq : 0 < q) :
    (2 : ℚ) ^ ilog2 q ≤ rnd q ∧ rnd q ≤ (2 : ℚ) ^ (ilog2 q + 1) := by
  obtain ⟨h1, h2⟩ := scaled_bounds q hq
  have a : (8388608 : ℤ) ≤ roundHalfEven (q / 2 ^ (ilog2 q - 23)) :=
    le_roundHalfEven (by push_cast; exact h1)
  have b : roundHalfEven (q / 2 ^ (ilog2 q - 23)) ≤ (16777216 : ℤ) :=
    roundHalfEven_le (by push_cast; exact h2.le)
  have hk : (0 : ℚ) < 2 ^ (ilog2 q - 23) := zpow_pos (by norm_num) _
  have e1 : (2 : ℚ) ^ ilog2 q = 8388608 * 2 ^ (ilog2 q - 23) := by
    have : (8388608 : ℚ) = 2 ^ (23 : ℤ) := by norm_num
    rw [this, ← zpow_add₀ (by norm_num : (2 : ℚ) ≠ 0)]
    congr 1
    ring
  have e2 : (2 : ℚ) ^ (ilog2 q + 1) = 16777216 * 2 ^ (ilog2 q - 23) := by
    have : (16777216 : ℚ) = 2 ^ (24 : ℤ) := by norm_num
    rw [this, ← zpow_add₀ (by norm_num : (2 : ℚ) ≠ 0)]
    congr 1
    ring
  have a' : (8388608 : ℚ) ≤ (roundHalfEven (q / 2 ^ (ilog2 q - 23)) : ℚ) := by exact_mod_cast a
  have b' : (roundHalfEven (q / 2 ^ (ilog2 q - 23)) : ℚ) ≤ (16777216 : ℚ) := by exact_mod_cast b
  unfold rnd
  rw [if_neg hq.ne', e1, e2]
  exact ⟨mul_le_mul_of_nonneg_right a' hk.le, mul_le_mul_of_nonneg_right b' hk.le⟩

theorem rnd_pos {q : ℚ} (hq : 0 < q) : 0 < rnd q :=
  lt_of_lt_of_le (zpow_pos (by norm_num) _) (rnd_bounds q hq).1

theorem rnd_neg_of_neg {q : ℚ} (hq : q < 0) : rnd q < 0 := by
  have := rnd_pos (neg_pos.mpr hq)
  rw [rnd_neg] at this
  linarith

theorem rnd_nonneg {q : ℚ} (hq : 0 ≤ q) : 0 ≤ rnd q := by
  rcases hq.lt_or_eq with h | h
  · exact (rnd_pos h).le
  · rw [← h, rnd_zero]

theorem rnd_lt_zero_iff (q : ℚ) : rnd q < 0 ↔ q < 0 := by
  constructor
  · intro h
    by_contra hq
    exact absurd (rnd_nonneg (not_lt.mp hq)) (not_le.mpr h)
  · exact rnd_neg_of_neg

theorem rnd_mono_pos {p q : ℚ} (hp : 0 < p) (hpq : p ≤ q) : rnd p ≤ rnd q := by
  have hq : 0 < q := hp.trans_le hpq
  rcases (ilog2_mono p q hp hpq).lt_or_eq with hlt | heq
  · have h1 := (rnd_bounds p hp).2
    have h2 := (rnd_bounds q hq).1
    have h3 : (2 : ℚ) ^ (ilog2 p + 1) ≤ 2 ^ ilog2 q :=
      zpow_le_zpow_right₀ (by norm_num) (by omega)
    linarith
  · unfold rnd
    rw [if_neg hp.ne', if_neg hq.ne', heq]
    have hk : (0 : ℚ) < 2 ^ (ilog2 q - 23) := zpow_pos (by norm_num) _
    have : roundHalfEven (p / 2 ^ (ilog2 q - 23)) ≤ roundHalfEven (q / 2 ^ (ilog2 q - 23)) :=
      roundHalfEven_mono (div_le_div_of_nonneg_right hpq hk.le)
    exact mul_le_mul_of_nonneg_right (by exact_mod_cast this) hk.le

theorem rnd_mono {p q : ℚ} (hpq : p ≤ q) : rnd p ≤ rnd q := by
  rcases lt_trichotomy p 0 with hp | hp | hp
  · rcases lt_or_le q 0 with hq | hq
    · have := rnd_mono_pos (neg_pos.mpr hq) (neg_le_neg hpq)
      rw [rnd_neg, rnd_neg] at this
      linarith
    · exact (rnd_neg_of_neg hp).le.trans (rnd_nonneg hq)
  · rw [hp, rnd_zero]
    exact rnd_nonneg (hp ▸ hpq)
  · exact rnd_mono_pos hp hpq

theorem rnd_pos_int_mul_zpow (m : ℤ) (j : ℤ) (h0 : 0 < m) (hm : m < 16777216) :
    rnd ((m : ℚ) * 2 ^ j) = (m : ℚ) * 2 ^ j := by
  have h2 : (0 : ℚ) < 2 := by norm_num
  have hj : (0 : ℚ) < 2 ^ j := zpow_pos h2 j
  have hmq : (0 : ℚ) < (m : ℚ) := by exact_mod_cast h0
  have hq : (0 : ℚ) < (m : ℚ) * 2 ^ j := mul_pos hmq hj
  obtain ⟨h1, _⟩ := ilog2_spec _ hq.ne'
  rw [abs_of_pos hq] at h1
  have hlt : (2 : ℚ) ^ ilog2 ((m : ℚ) * 2 ^ j) < 2 ^ (24 + j) := by
    have : (m : ℚ) * 2 ^ j < 2 ^ (24 + j) := by
      rw [zpow_add₀ h2.ne']
      have : (m : ℚ) < 2 ^ (24 : ℤ) := by
        have : (m : ℚ) < 16777216 := by exact_mod_cast hm
        norm_num
        exact this
      exact mul_lt_mul_of_pos_right this hj
    exact lt_of_le_of_lt h1 this
  have he : ilog2 ((m : ℚ) * 2 ^ j) < 24 + j :=
    (zpow_lt_zpow_iff_right₀ (by norm_num : (1 : ℚ) < 2)).mp hlt
  obtain ⟨t, ht⟩ := Int.eq_ofNat_of_zero_le (by omega : 0 ≤ j - (ilog2 ((m : ℚ) * 2 ^ j) - 23))
  have hsc : (m : ℚ) * 2 ^ j / 2 ^ (ilog2 ((m : ℚ) * 2 ^ j) - 23) = ((m * 2 ^ t : ℤ) : ℚ) := by
    rw [mul_div_assoc, ← zpow_sub₀ h2.ne', ht]
    push_cast
    rw [zpow_natCast]
  unfold rnd
  rw [if_neg hq.ne', hsc, roundHalfEven_intCast]
  push_cast
  rw [mul_assoc, ← zpow_natCast (2 : ℚ) t, ← zpow_add₀ h2.ne', ← ht]
  congr 2
  ring

theorem rnd_int_mul_zpow (m : ℤ) (j : ℤ) (hm : |m| < 16777216) :
    rnd ((m : ℚ) * 2 ^ j) = (m : ℚ) * 2 ^ j := by
  rcases lt_trichotomy m 0 with h | h | h
  · have h1 : 0 < -m := by omega
    have h2 : -m < 16777216 := by
      have := neg_le_abs m
      omega
    have := rnd_pos_int_mul_zpow (-m) j h1 h2
    push_cast at this
    rw [neg_mul, rnd_neg] at this
    linarith
  · simp [h, rnd_zero]
  · exact rnd_pos_int_mul_zpow m j h (lt_of_le_of_lt (le_abs_self m) hm)

theorem ofUInt32_exact (n : ℕ) (hn : n < 16777216) : ofUInt32 n = n := by
  have := rnd_int_mul_zpow (n : ℤ) 0 (by rw [abs_of_nonneg (by omega)]; omega)
  simpa [ofUInt32] using this

theorem rnd_two_zpow (j : ℤ) : rnd (2 ^ j) = 2 ^ j := by
  have := rnd_int_mul_zpow 1 j (by norm_num)
  simpa using this

theorem toUInt32_of_in_range (undef : ℚ → ℕ) {x : ℚ} (h1 : -1 < x) (h2 : x < 4294967296) :
    toUInt32 undef x = ⌊x⌋₊ := by
  unfold toUInt32
  rw [if_pos ⟨h1, h2⟩]

theorem toUInt32_congr (undef undef' : ℚ → ℕ) {x : ℚ} (h1 : -1 < x) (h2 : x < 4294967296) :
    toUInt32 undef x = toUInt32 undef' x := by
  rw [toUInt32_of_in_range undef h1 h2, toUInt32_of_in_range undef' h1 h2]

theorem toUInt32_mono (undef : ℚ → ℕ) {x y : ℚ} (hx : -1 < x) (hy : y < 4294967296)
    (h : x ≤ y) : toUInt32 undef x ≤ toUInt32 undef y := by
  rw [toUInt32_of_in_range undef hx (lt_of_le_of_lt h hy),
    toUInt32_of_in_range undef (lt_of_lt_of_le hx h) hy]
  exact Nat.floor_mono h

theorem toUInt32_le (undef : ℚ → ℕ) (x : ℚ) : toUInt32 undef x ≤ 4294967295 := by
  unfold toUInt32
  split_ifs with h
  · have h0 : ⌊x⌋₊ < 4294967296 := by
      rw [Nat.floor_lt' (by norm_num)]
      exact_mod_cast h.2
    omega
  · have := Nat.mod_lt (undef x) (by norm_num : 4294967296 > 0)
    omega

theorem le_toUInt32_castSaturating {n : ℕ} {x : ℚ} (hn : n ≤ 4294967295) (h : (n : ℚ) ≤ x) :
    n ≤ toUInt32 castSaturating x := by
  have hx0 : (0 : ℚ) ≤ x := le_trans (Nat.cast_nonneg n) h
  unfold toUInt32
  split_ifs with hr
  · exact Nat.le_floor h
  · unfold castSaturating
    rw [if_neg (not_lt.mpr hx0)]
    exact hn

theorem half_lt_rnd {q : ℚ} (hq : 0 < q) : q / 2 < rnd q := by
  obtain ⟨_, h2⟩ := ilog2_spec q hq.ne'
  rw [abs_of_pos hq] at h2
  have h1 := (rnd_bounds q hq).1
  have : (2 : ℚ) ^ (ilog2 q + 1) = 2 ^ ilog2 q * 2 := by
    rw [zpow_add₀ (by norm_num : (2 : ℚ) ≠ 0), zpow_one]
  linarith

theorem rnd_le_of_le {p r : ℚ} (hr : rnd r = r) (h : p ≤ r) : rnd p ≤ r := by
  have := rnd_mono h
  rwa [hr] at this

theorem le_rnd_of_le {p r : ℚ} (hr : rnd r = r) (h : r ≤ p) : r ≤ rnd p := by
  have := rnd_mono h
  rwa [hr] at this

theorem rnd_rel_err_pos {q : ℚ} (hq : 0 < q) : |rnd q - q| ≤ q / 16777216 := by
  obtain ⟨h1, _⟩ := scaled_bounds q hq
  have hk : (0 : ℚ) < 2 ^ (ilog2 q - 23) := zpow_pos (by norm_num) _
  have hnear := roundHalfEven_near (q / 2 ^ (ilog2 q - 23))
  have hq2 : q = q / 2 ^ (ilog2 q - 23) * 2 ^ (ilog2 q - 23) := by
    field_simp
  have hdiff : rnd q - q =
      ((roundHalfEven (q / 2 ^ (ilog2 q - 23)) : ℚ) - q / 2 ^ (ilog2 q - 23)) *
        2 ^ (ilog2 q - 23) := by
    unfold rnd
    rw [if_neg hq.ne', sub_mul, ← hq2]
  rw [hdiff, abs_mul, abs_of_pos hk]
  have hle : (2 : ℚ) ^ (ilog2 q - 23) ≤ q / 8388608 := by
    rw [le_div_iff₀ (by norm_num)]
    rw [le_div_iff₀ hk] at h1
    linarith
  calc |(roundHalfEven (q / 2 ^ (ilog2 q - 23)) : ℚ) - q / 2 ^ (ilog2 q - 23)| *
        2 ^ (ilog2 q - 23)
      ≤ 1 / 2 * 2 ^ (ilog2 q - 23) := mul_le_mul_of_nonneg_right hnear hk.le
    _ ≤ 1 / 2 * (q / 8388608) := mul_le_mul_of_nonneg_left hle (by norm_num)
    _ = q / 16777216 := by ring

theorem rnd_rel_err_nonneg {q : ℚ} (hq : 0 ≤ q) : |rnd q - q| ≤ q / 16777216 := by
  rcases hq.lt_or_eq with h | h
  · exact rnd_rel_err_pos h
  · rw [← h, rnd_zero]
    norm_num

theorem ofUInt32_le_of_lt (n : ℕ) (h : n < 4294967168) : ofUInt32 n ≤ 4294967040 := by
  have h1 : ((n : ℕ) : ℚ) ≤ 4294967167 := by
    have : n ≤ 4294967167 := by omega
    exact_mod_cast this
  have h2 : rnd 4294967167 = 4294967040 := by decide!
  have := rnd_mono h1
  unfold ofUInt32
  linarith

end F32

/-! ## Lemmas on the driver -/

namespace PWM

theorem arr_val_eq_arr_candidate (undef : ℚ → ℕ) (bus_clock_hz : ℕ) (us : ℚ) (psc : ℕ)
    (h : psc ≤ 4294) :
    arr_val undef bus_clock_hz us psc = arr_candidate undef bus_clock_hz us psc := by
  unfold arr_val arr_candidate
  rw [Nat.mod_eq_of_lt (by omega)]

theorem arr_val_congr (undef undef' : ℚ → ℕ) (bus_clock_hz : ℕ) (us : ℚ) (psc : ℕ)
    (h1 : -1 < F32.div (F32.mul (F32.ofUInt32 bus_clock_hz) us)
      (F32.ofUInt32 (psc * 1000000 % 4294967296)))
    (h2 : F32.div (F32.mul (F32.ofUInt32 bus_clock_hz) us)
      (F32.ofUInt32 (psc * 1000000 % 4294967296)) < 4294967296) :
    arr_val undef bus_clock_hz us psc = arr_val undef' bus_clock_hz us psc := by
  unfold arr_val
  exact F32.toUInt32_congr undef undef' h1 h2

theorem loop_reject (undef : ℚ → ℕ) (self : PWM) (bus_clock_hz : ℕ) (us : ℚ) :
    ∀ n psc : ℕ, (∀ k, k < n → 65535 < arr_val undef bus_clock_hz us (psc + k)) →
      setAutoPulseWidthLoop undef self bus_clock_hz us n psc = (ErrorCode.Fail, []) := by
  intro n
  induction n with
  | zero => intro psc _; rfl
  | succ n ih =>
    intro psc h
    have h0 : 65535 < arr_val undef bus_clock_hz us psc := by simpa using h 0 (Nat.succ_pos n)
    rw [setAutoPulseWidthLoop, if_pos h0]
    apply ih
    intro k hk
    have := h (k + 1) (by omega)
    rwa [show psc + 1 + k = psc + (k + 1) by omega]

theorem loop_accept (undef : ℚ → ℕ) (self : PWM) (bus_clock_hz : ℕ) (us : ℚ) :
    ∀ n psc k : ℕ, k < n → (∀ i, i < k → 65535 < arr_val undef bus_clock_hz us (psc + i)) →
      arr_val undef bus_clock_hz us (psc + k) ≤ 65535 →
      setAutoPulseWidthLoop undef self bus_clock_hz us n psc =
        (self._tim.setCCR (arr_val undef bus_clock_hz us (psc + k) / 2) self._channel,
          [TimerAccess.setPSR (psc + k - 1),
           TimerAccess.setARR (arr_val undef bus_clock_hz us (psc + k)),
           TimerAccess.setCCR (arr_val undef bus_clock_hz us (psc + k) / 2) self._channel]) := by
  intro n
  induction n with
  | zero => intro psc k hk; omega
  | succ n ih =>
    intro psc k hk hlt hle
    rcases Nat.eq_zero_or_pos k with rfl | hpos
    · rw [setAutoPulseWidthLoop, if_neg (by simpa using hle)]
      simp
    · have h0 : 65535 < arr_val undef bus_clock_hz us psc := by simpa using hlt 0 hpos
      rw [setAutoPulseWidthLoop, if_pos h0]
      have := ih (psc + 1) (k - 1) (by omega)
        (fun i hi => by
          have := hlt (i + 1) (by omega)
          rwa [show psc + 1 + i = psc + (i + 1) by omega])
        (by rwa [show psc + 1 + (k - 1) = psc + k by omega])
      rwa [show psc + 1 + (k - 1) = psc + k by omega] at this

theorem loop_cases (undef : ℚ → ℕ) (self : PWM) (bus_clock_hz : ℕ) (us : ℚ) (n psc : ℕ) :
    (setAutoPulseWidthLoop undef self bus_clock_hz us n psc = (ErrorCode.Fail, []) ∧
      ∀ k, k < n → 65535 < arr_val undef bus_clock_hz us (psc + k)) ∨
    ∃ k, k < n ∧ (∀ i, i < k → 65535 < arr_val undef bus_clock_hz us (psc + i)) ∧
      arr_val undef bus_clock_hz us (psc + k) ≤ 65535 ∧
      setAutoPulseWidthLoop undef self bus_clock_hz us n psc =
        (self._tim.setCCR (arr_val undef bus_clock_hz us (psc + k) / 2) self._channel,
          [TimerAccess.setPSR (psc + k - 1),
           TimerAccess.setARR (arr_val undef bus_clock_hz us (psc + k)),
           TimerAccess.setCCR (arr_val undef bus_clock_hz us (psc + k) / 2) self._channel]) := by
  by_cases h : ∃ k, k < n ∧ arr_val undef bus_clock_hz us (psc + k) ≤ 65535
  · right
    classical
    refine ⟨Nat.find h, (Nat.find_spec h).1, ?_, (Nat.find_spec h).2, ?_⟩
    · intro i hi
      have := Nat.find_min h hi
      by_contra hc
      exact this ⟨lt_trans hi (Nat.find_spec h).1, not_lt.mp hc⟩
    · apply loop_accept undef _ _ _ _ _ _ (Nat.find_spec h).1 _ (Nat.find_spec h).2
      intro i hi
      have := Nat.find_min h hi
      by_contra hc
      exact this ⟨lt_trans hi (Nat.find_spec h).1, not_lt.mp hc⟩
  · left
    have h2 : ∀ k, k < n → 65535 < arr_val undef bus_clock_hz us (psc + k) := by
      intro k hk
      by_contra hc
      exact h ⟨k, hk, not_lt.mp hc⟩
    exact ⟨loop_reject undef self bus_clock_hz us n psc h2, h2⟩

theorem denominator_pos (psc : ℕ) (h1 : 1 ≤ psc) (h2 : psc ≤ 65535) :
    0 < psc * 1000000 % 4294967296 := by
  omega

theorem arr_val_large (bus_clock_hz : ℕ) (us : ℚ) (psc : ℕ)
    (hx : (281474976710656 : ℚ) ≤ F32.ofUInt32 bus_clock_hz * us)
    (hd : 0 < psc * 1000000 % 4294967296) :
    65535 < arr_val F32.castSaturating bus_clock_hz us psc := by
  have e48 : F32.rnd 281474976710656 = 281474976710656 := by
    have := F32.rnd_two_zpow 48
    norm_num at this
    exact this
  have e32 : F32.rnd 4294967296 = 4294967296 := by
    have := F32.rnd_two_zpow 32
    norm_num at this
    exact this
  have e16 : F32.rnd 65536 = 65536 := by
    have := F32.rnd_two_zpow 16
    norm_num at this
    exact this
  have hxx : (281474976710656 : ℚ) ≤ F32.mul (F32.ofUInt32 bus_clock_hz) us :=
    F32.le_rnd_of_le e48 hx
  have hdq : (0 : ℚ) < ((psc * 1000000 % 4294967296 : ℕ) : ℚ) := by exact_mod_cast hd
  have hd0 : 0 < F32.ofUInt32 (psc * 1000000 % 4294967296) := F32.rnd_pos hdq
  have hd1 : F32.ofUInt32 (psc * 1000000 % 4294967296) ≤ 4294967296 := by
    apply F32.rnd_le_of_le e32
    have : psc * 1000000 % 4294967296 < 4294967296 := Nat.mod_lt _ (by norm_num)
    exact_mod_cast this.le
  have hq : (65536 : ℚ) ≤ F32.mul (F32.ofUInt32 bus_clock_hz) us /
      F32.ofUInt32 (psc * 1000000 % 4294967296) := by
    rw [le_div_iff₀ hd0]
    calc (65536 : ℚ) * F32.ofUInt32 (psc * 1000000 % 4294967296)
        ≤ 65536 * 4294967296 := by linarith
      _ = 281474976710656 := by norm_num
      _ ≤ _ := hxx
  have hr : (65536 : ℚ) ≤ F32.div (F32.mul (F32.ofUInt32 bus_clock_hz) us)
      (F32.ofUInt32 (psc * 1000000 % 4294967296)) := F32.le_rnd_of_le e16 hq
  have : 65536 ≤ arr_val F32.castSaturating bus_clock_hz us psc := by
    unfold arr_val
    exact F32.le_toUInt32_castSaturating (by norm_num) (by exact_mod_cast hr)
  omega

theorem loop_fails_of_large (self : PWM) (bus_clock_hz : ℕ) (us : ℚ)
    (hx : (281474976710656 : ℚ) ≤ F32.ofUInt32 bus_clock_hz * us) :
    setAutoPulseWidthLoop F32.castSaturating self bus_clock_hz us 65535 1 =
        (ErrorCode.Fail, []) := by
  apply loop_reject
  intro k hk
  exact arr_val_large _ _ _ hx (denominator_pos _ (by omega) (by omega))

theorem nonneg_of_precheck_passes (bus_clock_hz : ℕ) (us : ℚ)
    (h : ¬ F32.mul us 1000 < (UnitConverter.Time.s2ns (1 / bus_clock_hz) : ℚ)) : 0 ≤ us := by
  by_contra hc
  have hneg : us * 1000 < 0 := by linarith
  have h1 : F32.mul us 1000 < 0 := F32.rnd_neg_of_neg hneg
  have h2 : (0 : ℚ) ≤ (UnitConverter.Time.s2ns (1 / bus_clock_hz) : ℚ) := Nat.cast_nonneg _
  exact h (lt_of_lt_of_le h1 h2)

theorem arr_val_antitone (undef : ℚ → ℕ) (bus_clock_hz : ℕ) (us : ℚ) (p psc : ℕ) (hus : 0 ≤ us)
    (hp : 1 ≤ p) (hle : p ≤ psc) (hpsc : psc ≤ 4294)
    (hin : F32.div (F32.mul (F32.ofUInt32 bus_clock_hz) us) (F32.ofUInt32 1000000) <
      4294967296) :
    arr_val undef bus_clock_hz us psc ≤ arr_val undef bus_clock_hz us p := by
  rw [arr_val_eq_arr_candidate undef _ _ _ hpsc,
    arr_val_eq_arr_candidate undef _ _ _ (hle.trans hpsc)]
  unfold arr_candidate
  have hx : 0 ≤ F32.mul (F32.ofUInt32 bus_clock_hz) us :=
    F32.rnd_nonneg (mul_nonneg (F32.rnd_nonneg (Nat.cast_nonneg _)) hus)
  have hd0 : 0 < F32.ofUInt32 1000000 := F32.rnd_pos (by norm_num)
  have hd01 : F32.ofUInt32 1000000 ≤ F32.ofUInt32 (p * 1000000) := by
    apply F32.rnd_mono
    have : 1000000 ≤ p * 1000000 := by omega
    exact_mod_cast this
  have hd1 : 0 < F32.ofUInt32 (p * 1000000) := lt_of_lt_of_le hd0 hd01
  have hd2 : F32.ofUInt32 (p * 1000000) ≤ F32.ofUInt32 (psc * 1000000) := by
    apply F32.rnd_mono
    have : p * 1000000 ≤ psc * 1000000 := by omega
    exact_mod_cast this
  have h0 : 0 ≤ F32.div (F32.mul (F32.ofUInt32 bus_clock_hz) us)
      (F32.ofUInt32 (psc * 1000000)) :=
    F32.rnd_nonneg (div_nonneg hx (hd1.le.trans hd2))
  have h1 : F32.div (F32.mul (F32.ofUInt32 bus_clock_hz) us) (F32.ofUInt32 (p * 1000000)) ≤
      F32.div (F32.mul (F32.ofUInt32 bus_clock_hz) us) (F32.ofUInt32 1000000) :=
    F32.rnd_mono (div_le_div_of_nonneg_left hx hd0 hd01)
  exact F32.toUInt32_mono undef (by linarith) (lt_of_le_of_lt h1 hin)
    (F32.rnd_mono (div_le_div_of_nonneg_left hx hd1 hd2))

theorem precheck_passes_of_large (bus_clock_hz : ℕ) (us : ℚ) (hus : 1073741824 ≤ us * 1000) :
    ¬ F32.mul us 1000 < (UnitConverter.Time.s2ns (1 / bus_clock_hz) : ℚ) := by
  have e30 : F32.rnd 1073741824 = 1073741824 := by
    have := F32.rnd_two_zpow 30
    norm_num at this
    exact this
  have h1 : (1073741824 : ℚ) ≤ F32.mul us 1000 := F32.le_rnd_of_le e30 hus
  have h2 : 1 / bus_clock_hz ≤ 1 := Nat.div_le_self 1 bus_clock_hz
  have h3 : ((UnitConverter.Time.s2ns (1 / bus_clock_hz) : ℕ) : ℚ) ≤ 1000000000 := by
    unfold UnitConverter.Time.s2ns
    have : 1 / bus_clock_hz * 1000000000 ≤ 1000000000 := by nlinarith
    exact_mod_cast this
  linarith

theorem precheck_passes_of_nonneg (bus_clock_hz : ℕ) (us : ℚ) (hb : bus_clock_hz ≠ 1)
    (hus : 0 ≤ us) :
    ¬ F32.mul us 1000 < (UnitConverter.Time.s2ns (1 / bus_clock_hz) : ℚ) := by
  have h0 : 1 / bus_clock_hz = 0 := by
    rcases Nat.eq_zero_or_pos bus_clock_hz with h | h
    · simp [h]
    · exact Nat.div_eq_of_lt (by omega)
  rw [h0]
  have : 0 ≤ F32.mul us 1000 := F32.rnd_nonneg (by linarith)
  simpa [UnitConverter.Time.s2ns] using this

theorem duty_product_error (d : ℚ) (P : ℕ) (h0 : 0 ≤ d) (h100 : d ≤ 100) :
    |F32.mul (F32.div d 100) (F32.ofUInt32 P) - d / 100 * P| ≤ (P : ℚ) / 4194304 := by
  have hP : (0 : ℚ) ≤ (P : ℚ) := Nat.cast_nonneg P
  have hd0 : (0 : ℚ) ≤ d / 100 := by positivity
  have hd1 : d / 100 ≤ 1 := by linarith
  have ha := abs_le.mp (F32.rnd_rel_err_nonneg hd0)
  have hb := abs_le.mp (F32.rnd_rel_err_nonneg hP)
  have ha0 : 0 ≤ F32.div d 100 := F32.rnd_nonneg hd0
  have hb0 : 0 ≤ F32.ofUInt32 P := F32.rnd_nonneg hP
  have hab0 : 0 ≤ F32.div d 100 * F32.ofUInt32 P := mul_nonneg ha0 hb0
  have hy := abs_le.mp (F32.rnd_rel_err_nonneg hab0)
  have hA1 : F32.div d 100 ≤ d / 100 * (1 + 1 / 16777216) := by
    have := ha.2
    unfold F32.div
    linarith
  have hA2 : d / 100 * (1 - 1 / 16777216) ≤ F32.div d 100 := by
    have := ha.1
    unfold F32.div
    linarith
  have hB1 : F32.ofUInt32 P ≤ (P : ℚ) * (1 + 1 / 16777216) := by
    have := hb.2
    unfold F32.ofUInt32
    linarith
  have hB2 : (P : ℚ) * (1 - 1 / 16777216) ≤ F32.ofUInt32 P := by
    have := hb.1
    unfold F32.ofUInt32
    linarith
  have hAB1 : F32.div d 100 * F32.ofUInt32 P ≤
      d / 100 * (1 + 1 / 16777216) * ((P : ℚ) * (1 + 1 / 16777216)) :=
    mul_le_mul hA1 hB1 hb0 (by positivity)
  have hAB2 : d / 100 * (1 - 1 / 16777216) * ((P : ℚ) * (1 - 1 / 16777216)) ≤
      F32.div d 100 * F32.ofUInt32 P :=
    mul_le_mul hA2 hB2 (by positivity) ha0
  have hdP : (0 : ℚ) ≤ d / 100 * P := mul_nonneg hd0 hP
  have hdP1 : d / 100 * P ≤ P := by nlinarith
  have hY1 : F32.mul (F32.div d 100) (F32.ofUInt32 P) ≤
      F32.div d 100 * F32.ofUInt32 P * (1 + 1 / 16777216) := by
    have := hy.2
    unfold F32.mul
    linarith
  have hY2 : F32.div d 100 * F32.ofUInt32 P * (1 - 1 / 16777216) ≤
      F32.mul (F32.div d 100) (F32.ofUInt32 P) := by
    have := hy.1
    unfold F32.mul
    linarith
  rw [abs_le]
  constructor
  · have : d / 100 * (1 - 1 / 16777216) * ((P : ℚ) * (1 - 1 / 16777216)) * (1 - 1 / 16777216) ≤
        F32.div d 100 * F32.ofUInt32 P * (1 - 1 / 16777216) :=
      mul_le_mul_of_nonneg_right hAB2 (by norm_num)
    nlinarith
  · have : F32.div d 100 * F32.ofUInt32 P * (1 + 1 / 16777216) ≤
        d / 100 * (1 + 1 / 16777216) * ((P : ℚ) * (1 + 1 / 16777216)) * (1 + 1 / 16777216) :=
      mul_le_mul_of_nonneg_right hAB1 (by norm_num)
    nlinarith

theorem setDutyCycle_in_range_aux (undef : ℚ → ℕ) (self : PWM) (duty_cycle : ℚ)
    (h0 : 0 ≤ duty_cycle) (h100 : duty_cycle ≤ 100) (hP : 0 < self._tim.getPeriod)
    (hch : supported self._channel = true) :
    setDutyCycle undef self duty_cycle =
      (ErrorCode.OK,
        [TimerAccess.storeCCR self._channel
          (min
              (F32.toUInt32 undef
                  (F32.mul (F32.div duty_cycle 100) (F32.ofUInt32 self._tim.getPeriod)))
            self._tim.getPeriod)]) := by
  have hmin : ∀ a b : ℕ, (if a > b then b else a) = min a b := by
    intro a b
    split_ifs with h
    · exact (min_eq_right (le_of_lt h)).symm
    · exact (min_eq_left (not_lt.mp h)).symm
  unfold setDutyCycle
  rw [if_neg (not_lt.mpr h0)]
  simp only [if_neg (not_lt.mpr h100), if_neg (Nat.pos_iff_ne_zero.mp hP), hmin]
  cases hc : self._channel <;> simp_all [supported]

theorem duty_product_in_range (d : ℚ) (P : ℕ) (h0 : 0 ≤ d) (h100 : d ≤ 100)
    (hP : P < 4294967168) :
    0 ≤ F32.mul (F32.div d 100) (F32.ofUInt32 P) ∧
      F32.mul (F32.div d 100) (F32.ofUInt32 P) < 4294967296 := by
  have e1 : F32.rnd 1 = 1 := by decide!
  have eM : F32.rnd 4294967040 = 4294967040 := by decide!
  have ha0 : 0 ≤ F32.div d 100 := F32.rnd_nonneg (by positivity)
  have ha1 : F32.div d 100 ≤ 1 := F32.rnd_le_of_le e1 (by linarith)
  have hb0 : 0 ≤ F32.ofUInt32 P := F32.rnd_nonneg (Nat.cast_nonneg P)
  have hb1 : F32.ofUInt32 P ≤ 4294967040 := F32.ofUInt32_le_of_lt P hP
  have hprod : F32.div d 100 * F32.ofUInt32 P ≤ 4294967040 := by nlinarith
  have hy : F32.mul (F32.div d 100) (F32.ofUInt32 P) ≤ 4294967040 := F32.rnd_le_of_le eM hprod
  exact ⟨F32.rnd_nonneg (mul_nonneg ha0 hb0), by linarith⟩

theorem arr_val_of_bounds (undef : ℚ → ℕ) (bus_clock_hz : ℕ) (us : ℚ) (psc : ℕ) (dlo dhi : ℚ)
    (hlo : F32.rnd dlo = dlo) (hhi : F32.rnd dhi = dhi) (h0 : 0 < dlo)
    (h1 : dlo ≤ ((psc * 1000000 % 4294967296 : ℕ) : ℚ))
    (h2 : ((psc * 1000000 % 4294967296 : ℕ) : ℚ) ≤ dhi)
    (h3 : 65536 * dhi ≤ F32.mul (F32.ofUInt32 bus_clock_hz) us)
    (h4 : F32.mul (F32.ofUInt32 bus_clock_hz) us ≤ 4294967040 * dlo) :
    65535 < arr_val undef bus_clock_hz us psc := by
  have e16 : F32.rnd 65536 = 65536 := by decide!
  have eM : F32.rnd 4294967040 = 4294967040 := by decide!
  have hd1 : dlo ≤ F32.ofUInt32 (psc * 1000000 % 4294967296) := F32.le_rnd_of_le hlo h1
  have hd2 : F32.ofUInt32 (psc * 1000000 % 4294967296) ≤ dhi := F32.rnd_le_of_le hhi h2
  have hd0 : 0 < F32.ofUInt32 (psc * 1000000 % 4294967296) := lt_of_lt_of_le h0 hd1
  have hq1 : (65536 : ℚ) ≤ F32.mul (F32.ofUInt32 bus_clock_hz) us /
      F32.ofUInt32 (psc * 1000000 % 4294967296) := by
    rw [le_div_iff₀ hd0]
    nlinarith
  have hq2 : F32.mul (F32.ofUInt32 bus_clock_hz) us /
      F32.ofUInt32 (psc * 1000000 % 4294967296) ≤ 4294967040 := by
    rw [div_le_iff₀ hd0]
    nlinarith
  have hr1 : (65536 : ℚ) ≤ F32.div (F32.mul (F32.ofUInt32 bus_clock_hz) us)
      (F32.ofUInt32 (psc * 1000000 % 4294967296)) := F32.le_rnd_of_le e16 hq1
  have hr2 : F32.div (F32.mul (F32.ofUInt32 bus_clock_hz) us)
      (F32.ofUInt32 (psc * 1000000 % 4294967296)) ≤ 4294967040 := F32.rnd_le_of_le eM hq2
  unfold arr_val
  rw [F32.toUInt32_of_in_range undef (by linarith) (by linarith)]
  have : (65536 : ℕ) ≤ ⌊F32.div (F32.mul (F32.ofUInt32 bus_clock_hz) us)
      (F32.ofUInt32 (psc * 1000000 % 4294967296))⌋₊ := Nat.le_floor (by exact_mod_cast hr1)
  omega

theorem extreme_denominators (psc : ℕ) (h1 : 1 ≤ psc) (h2 : psc < 42949) :
    psc = 4295 ∨ psc = 8590 ∨
      (65526 ≤ psc * 1000000 % 4294967296 ∧ psc * 1000000 % 4294967296 ≤ 4294281216) := by
  have hdm := Nat.div_add_mod (psc * 1000000) 4294967296
  have hlt := Nat.mod_lt (psc * 1000000) (by norm_num : 4294967296 > 0)
  generalize psc * 1000000 % 4294967296 = r at *
  generalize psc * 1000000 / 4294967296 = b at *
  have hb : b ≤ 9 := by omega
  interval_cases b <;> omega

theorem wrapped_prescaler_accepted (undef : ℚ → ℕ) (self : PWM)
    (hbus : self._tim.getBusClockFrequency = 1000000)
    (ha : 65535 < arr_val undef 1000000 281430016 4295)
    (hb : 65535 < arr_val undef 1000000 281430016 8590) :
    setAutoPulseWidth undef self 281430016 =
      (self._tim.setCCR 32767 self._channel,
        [TimerAccess.setPSR 42948, TimerAccess.setARR 65535,
         TimerAccess.setCCR 32767 self._channel]) := by
  have hpre : ¬ F32.mul 281430016 1000 < (UnitConverter.Time.s2ns (1 / 1000000) : ℚ) := by
    decide!
  have hX : F32.mul (F32.ofUInt32 1000000) 281430016 = 281430013771776 := by decide!
  have hacc : arr_val undef 1000000 281430016 42949 = 65535 := by
    rw [arr_val_congr undef F32.castWrapping 1000000 281430016 42949 (by decide!) (by decide!)]
    decide!
  have hskip : ∀ i, i < 42948 → 65535 < arr_val undef 1000000 281430016 (1 + i) := by
    intro i hi
    rcases extreme_denominators (1 + i) (by omega) (by omega) with h | h | ⟨h, h'⟩
    · rw [h]
      exact ha
    · rw [h]
      exact hb
    · apply arr_val_of_bounds undef 1000000 281430016 (1 + i) 65526 4294281216
        (by decide!) (by decide!) (by norm_num) (by exact_mod_cast h) (by exact_mod_cast h')
      · rw [hX]
        norm_num
      · rw [hX]
        norm_num
  unfold setAutoPulseWidth
  simp only [hbus, hpre, if_false]
  have key := loop_accept undef self 1000000 281430016 65535 1 42948 (by norm_num) hskip
    (by rw [show 1 + 42948 = 42949 by norm_num, hacc])
  rw [show 1 + 42948 = 42949 by norm_num, hacc] at key
  exact key

theorem candidates_in_range (bus_clock_hz : ℕ) (us : ℚ) (psc : ℕ) (h0 : 0 ≤ us)
    (h1 : 1 ≤ psc) (h2 : psc ≤ 4294)
    (hq : F32.div (F32.mul (F32.ofUInt32 bus_clock_hz) us) (F32.ofUInt32 (psc * 1000000)) <
      65536)
    (p : ℕ) (hp : 1 ≤ p) :
    0 ≤ F32.div (F32.mul (F32.ofUInt32 bus_clock_hz) us) (F32.ofUInt32 (p * 1000000)) ∧
    F32.div (F32.mul (F32.ofUInt32 bus_clock_hz) us) (F32.ofUInt32 (p * 1000000)) <
      4294967296 := by
  have e16 : F32.rnd 65536 = 65536 := by decide!
  have e29 : F32.rnd 536870912 = 536870912 := by decide!
  have e32 : F32.rnd 4294967296 = 4294967296 := by decide!
  have e6 : F32.rnd 1000000 = 1000000 := by decide!
  have hx0 : 0 ≤ F32.mul (F32.ofUInt32 bus_clock_hz) us :=
    F32.rnd_nonneg (mul_nonneg (F32.rnd_nonneg (Nat.cast_nonneg _)) h0)
  have hd0 : F32.ofUInt32 (psc * 1000000) ≤ 4294967296 := by
    apply F32.rnd_le_of_le e32
    have : psc * 1000000 ≤ 4294967296 := by omega
    exact_mod_cast this
  have hd0pos : 0 < F32.ofUInt32 (psc * 1000000) := by
    apply F32.rnd_pos
    have : 0 < psc * 1000000 := by omega
    exact_mod_cast this
  have hX : F32.mul (F32.ofUInt32 bus_clock_hz) us < 281474976710656 := by
    by_contra hc
    have hc' := not_lt.mp hc
    have h3 : (65536 : ℚ) ≤ F32.mul (F32.ofUInt32 bus_clock_hz) us /
        F32.ofUInt32 (psc * 1000000) := by
      rw [le_div_iff₀ hd0pos]
      nlinarith
    have h4 := F32.le_rnd_of_le e16 h3
    unfold F32.div at hq
    linarith
  have hd : (1000000 : ℚ) ≤ F32.ofUInt32 (p * 1000000) := by
    apply F32.le_rnd_of_le e6
    have : 1000000 ≤ p * 1000000 := by omega
    exact_mod_cast this
  have hdpos : (0 : ℚ) < F32.ofUInt32 (p * 1000000) := by linarith
  refine ⟨F32.rnd_nonneg (div_nonneg hx0 hdpos.le), ?_⟩
  have h5 : F32.div (F32.mul (F32.ofUInt32 bus_clock_hz) us) (F32.ofUInt32 (p * 1000000)) ≤
      536870912 := by
    apply F32.rnd_le_of_le e29
    rw [div_le_iff₀ hdpos]
    nlinarith
  linarith

theorem too_large_fails_of_saturating (self : PWM) (us : ℚ)
    (h : (65535 : ℤ) < ⌊(self._tim.getBusClockFrequency : ℚ) * us / (65535 * 1000000)⌋) :
    setAutoPulseWidth F32.castSaturating self us = (ErrorCode.Fail, []) := by
  have h1 : ((65536 : ℤ) : ℚ) ≤ (self._tim.getBusClockFrequency : ℚ) * us / (65535 * 1000000) :=
    Int.le_floor.mp (by omega)
  rw [le_div_iff₀ (by norm_num)] at h1
  push_cast at h1
  have hb0 : (0 : ℚ) ≤ (self._tim.getBusClockFrequency : ℚ) := Nat.cast_nonneg _
  have hbpos : (0 : ℚ) < (self._tim.getBusClockFrequency : ℚ) := by
    rcases hb0.lt_or_eq with hlt | heq
    · exact hlt
    · rw [← heq] at h1
      norm_num at h1
  have huspos : 0 < us := by
    by_contra hc
    have : (self._tim.getBusClockFrequency : ℚ) * us ≤ 0 :=
      mul_nonpos_of_nonneg_of_nonpos hb0 (not_lt.mp hc)
    linarith
  have hb32 : (self._tim.getBusClockFrequency : ℚ) / 2 <
      F32.ofUInt32 self._tim.getBusClockFrequency := F32.half_lt_rnd hbpos
  have hx : (281474976710656 : ℚ) ≤ F32.ofUInt32 self._tim.getBusClockFrequency * us := by
    have : (self._tim.getBusClockFrequency : ℚ) / 2 * us ≤
        F32.ofUInt32 self._tim.getBusClockFrequency * us :=
      mul_le_mul_of_nonneg_right hb32.le huspos.le
    linarith
  have hpre : ¬ F32.mul us 1000 <
      (UnitConverter.Time.s2ns (1 / self._tim.getBusClockFrequency) : ℚ) := by
    by_cases hbb : self._tim.getBusClockFrequency = 1
    · apply precheck_passes_of_large
      rw [hbb] at h1
      push_cast at h1
      linarith
    · exact precheck_passes_of_nonneg _ _ hbb huspos.le
  unfold setAutoPulseWidth
  simp only [hpre, if_false]
  exact loop_fails_of_large self _ us hx

end PWM

/-! ## The claims -/

namespace PWM

/-- C2 (as amended). For every duty cycle in `[0, 100]`, every period `P` with
`0 < P < 2^32 - 128` reported by `getPeriod()` and every channel `CH1..CH6`, `setDutyCycle`
returns `OK` and stores into that channel's compare register the value `min(floor(y), P)`, where
`y` is `duty_cycle / 100 * P` evaluated in single precision (the quotient, the conversion of `P`
and the product each rounded to the nearest `float`); `y` is within `P / 2^22` of the exact
product. This holds whatever a conversion outside `[0, 2^32)` yields: below `2^32 - 128` the
period converts to a `float` of at most `2^32 - 256` and `y` stays below `2^32`. -/
theorem setDutyCycle_in_range (undef : ℚ → ℕ) (self : PWM) (duty_cycle : ℚ)
    (h0 : 0 ≤ duty_cycle) (h100 : duty_cycle ≤ 100) (hP : 0 < self._tim.getPeriod)
    (hP32 : self._tim.getPeriod < 4294967168) (hch : supported self._channel = true) :
    setDutyCycle undef self duty_cycle =
      (ErrorCode.OK,
        [TimerAccess.storeCCR self._channel
          (min ⌊F32.mul (F32.div duty_cycle 100) (F32.ofUInt32 self._tim.getPeriod)⌋₊
            self._tim.getPeriod)]) ∧
    |F32.mul (F32.div duty_cycle 100) (F32.ofUInt32 self._tim.getPeriod) -
        duty_cycle / 100 * self._tim.getPeriod| ≤ (self._tim.getPeriod : ℚ) / 4194304 := by
  obtain ⟨hy0, hy1⟩ := duty_product_in_range duty_cycle _ h0 h100 hP32
  refine ⟨?_, duty_product_error duty_cycle _ h0 h100⟩
  rw [setDutyCycle_in_range_aux undef self duty_cycle h0 h100 hP hch,
    F32.toUInt32_of_in_range undef (by linarith) hy1]

/-- Witness of C2: a duty cycle of 50 % on `CH2` with a period of 1000. -/
theorem setDutyCycle_in_range_witness :
    setDutyCycle F32.castWrapping (construct (TIM.succeeding 1000 0) TIM_Channel.CH2) 50 =
      (ErrorCode.OK,
        [TimerAccess.storeCCR TIM_Channel.CH2
          (min ⌊F32.mul (F32.div 50 100) (F32.ofUInt32 1000)⌋₊ 1000)]) ∧
    |F32.mul (F32.div 50 100) (F32.ofUInt32 1000) - 50 / 100 * ((1000 : ℕ) : ℚ)| ≤
      ((1000 : ℕ) : ℚ) / 4194304 :=
  setDutyCycle_in_range F32.castWrapping (construct (TIM.succeeding 1000 0) TIM_Channel.CH2) 50
    (by norm_num) (by norm_num) (by decide) (by decide) (by decide)

/-- Counterexample to C2 as stated. (1) Rounding: with period 100 and the duty cycle 53 (a
`float`), `min(floor(53 / 100 * 100), 100) = 53`, but `setDutyCycle(53)` stores 52: the `float`
nearest to `53 / 100` lies below it and the product is rounded to the `float` below 53.
(2) Conversion: with period `2^32 - 1` and the duty cycle 100, `min(floor(100 / 100 * P), P) = P`,
but the period converts to the `float` `2^32`, the product is `2^32`, outside the range of
`uint32_t`, and where the conversion keeps the low 32 bits `setDutyCycle(100)` stores 0. -/
theorem setDutyCycle_in_range_counterexample :
    (F32.representable 53 ∧
      min ⌊(53 : ℚ) / 100 * 100⌋₊ 100 = 53 ∧
      setDutyCycle F32.castWrapping (construct (TIM.succeeding 100 0) TIM_Channel.CH1) 53 =
        (ErrorCode.OK, [TimerAccess.storeCCR TIM_Channel.CH1 52])) ∧
    (F32.representable 100 ∧
      min ⌊(100 : ℚ) / 100 * 4294967295⌋₊ 4294967295 = 4294967295 ∧
      F32.mul (F32.div 100 100) (F32.ofUInt32 4294967295) = 4294967296 ∧
      setDutyCycle F32.castWrapping (construct (TIM.succeeding 4294967295 0) TIM_Channel.CH1)
          100 = (ErrorCode.OK, [TimerAccess.storeCCR TIM_Channel.CH1 0])) := by
  refine ⟨⟨by decide!, by decide!, by decide!⟩, by decide!, by decide!, by decide!, by decide!⟩

/-- C3 (the code at the failing input). With a 1 MHz bus clock, one bus-clock period is
1000 ns; for `us = 0.5` (500 ns) the precheck compares 500 with `s2ns(1 / 1000000) = s2ns(0) = 0`
and passes, and `setAutoPulseWidth` writes prescaler 0, reload 0 and compare 0 instead of
returning `InvalidParam`. -/
theorem setAutoPulseWidth_below_resolution_accepted :
    F32.representable (1 / 2) ∧
    (1 / 2 : ℚ) * 1000 < 1000000000 / 1000000 ∧
    setAutoPulseWidth F32.castWrapping (construct (TIM.succeeding 0 1000000) TIM_Channel.CH1)
        (1 / 2) =
      (ErrorCode.OK,
        [TimerAccess.setPSR 0, TimerAccess.setARR 0, TimerAccess.setCCR 0 TIM_Channel.CH1]) := by
  refine ⟨by decide!, by norm_num, by decide!⟩

/-- C4 (the code at the failing input). With a 1 MHz bus clock and `us = 2^32` (a `float`) the
pulse width is too large for every prescaler, `floor(bus_clock_hz * us / (65535 * 1_000_000))`
being 65537, and the precheck passes. The first quotient of the search is `2^32`, outside the
range of `uint32_t`: where the conversion keeps the low 32 bits the candidate is 0 and
`setAutoPulseWidth` returns `OK` after writing prescaler 0, reload 0 and compare 0; where the
conversion saturates the call returns `Fail` and writes nothing. -/
theorem setAutoPulseWidth_too_large_accepted :
    F32.representable 4294967296 ∧
    (65535 : ℤ) < ⌊(1000000 : ℚ) * 4294967296 / (65535 * 1000000)⌋ ∧
    ¬ F32.mul 4294967296 1000 < (UnitConverter.Time.s2ns (1 / 1000000) : ℚ) ∧
    F32.div (F32.mul (F32.ofUInt32 1000000) 4294967296)
      (F32.ofUInt32 (1 * 1000000 % 4294967296)) = 4294967296 ∧
    setAutoPulseWidth F32.castWrapping (construct (TIM.succeeding 0 1000000) TIM_Channel.CH1)
        4294967296 =
      (ErrorCode.OK,
        [TimerAccess.setPSR 0, TimerAccess.setARR 0, TimerAccess.setCCR 0 TIM_Channel.CH1]) ∧
    setAutoPulseWidth F32.castSaturating (construct (TIM.succeeding 0 1000000) TIM_Channel.CH1)
        4294967296 = (ErrorCode.Fail, []) := by
  have hpre : ¬ F32.mul 4294967296 1000 < (UnitConverter.Time.s2ns (1 / 1000000) : ℚ) := by
    decide!
  refine ⟨by decide!, by decide!, hpre, by decide!, by decide!, ?_⟩
  unfold setAutoPulseWidth
  simp only [construct, TIM.succeeding, hpre, if_false]
  apply loop_fails_of_large
  have : F32.ofUInt32 1000000 = 1000000 := by decide!
  rw [this]
  norm_num

/-- C5 (as amended). For every duty cycle below 0, whatever the period and the channel,
`setDutyCycle` fails with `ErrorCode::Fail` and makes no access to the timer, so no compare
register is written. -/
theorem setDutyCycle_negative_fails (undef : ℚ → ℕ) (self : PWM) (duty_cycle : ℚ)
    (h : duty_cycle < 0) :
    setDutyCycle undef self duty_cycle = (ErrorCode.Fail, []) := by
  unfold setDutyCycle
  rw [if_pos h]

/-- Witness of C5: the duty cycle -1. -/
theorem setDutyCycle_negative_fails_witness :
    setDutyCycle F32.castWrapping (construct (TIM.succeeding 1000 0) TIM_Channel.CH1) (-1) =
      (ErrorCode.Fail, []) :=
  setDutyCycle_negative_fails F32.castWrapping _ (-1) (by norm_num)

/-- Counterexample to C5 as stated: `setDutyCycle(-1)` does not return `InvalidParam`. -/
theorem setDutyCycle_negative_fails_counterexample :
    (setDutyCycle F32.castWrapping (construct (TIM.succeeding 1000 0) TIM_Channel.CH1) (-1)).1 ≠
      ErrorCode.InvalidParam := by
  decide!

/-- C6. For every duty cycle above 100, every period and every channel, `setDutyCycle` returns
the same result and makes the same accesses to the timer as `setDutyCycle(100)`; with a period
above 0 and a channel among `CH1..CH6` it returns `OK`. -/
theorem setDutyCycle_above_100_clamped (undef : ℚ → ℕ) (self : PWM) (duty_cycle : ℚ)
    (h : 100 < duty_cycle) :
    setDutyCycle undef self duty_cycle = setDutyCycle undef self 100 ∧
    (0 < self._tim.getPeriod → supported self._channel = true →
      (setDutyCycle undef self duty_cycle).1 = ErrorCode.OK) := by
  have hneg : ¬ duty_cycle < 0 := by linarith
  have heq : setDutyCycle undef self duty_cycle = setDutyCycle undef self 100 := by
    unfold setDutyCycle
    rw [if_neg hneg, if_neg (by norm_num : ¬ (100 : ℚ) < 0)]
    simp only [if_pos h, if_neg (lt_irrefl (100 : ℚ))]
  refine ⟨heq, ?_⟩
  intro hP hch
  rw [heq]
  exact congrArg Prod.fst
    (setDutyCycle_in_range_aux undef self 100 (by norm_num) le_rfl hP hch)

/-- Witness of C6: the duty cycle 150 on `CH3` with a period of 1000. -/
theorem setDutyCycle_above_100_clamped_witness :
    setDutyCycle F32.castWrapping (construct (TIM.succeeding 1000 0) TIM_Channel.CH3) 150 =
      setDutyCycle F32.castWrapping (construct (TIM.succeeding 1000 0) TIM_Channel.CH3) 100 ∧
    (setDutyCycle F32.castWrapping
        (construct (TIM.succeeding 1000 0) TIM_Channel.CH3) 150).1 = ErrorCode.OK :=
  ⟨(setDutyCycle_above_100_clamped F32.castWrapping
      (construct (TIM.succeeding 1000 0) TIM_Channel.CH3) 150
      (by norm_num)).1,
    (setDutyCycle_above_100_clamped F32.castWrapping
        (construct (TIM.succeeding 1000 0) TIM_Channel.CH3) 150
      (by norm_num)).2 (by decide) (by decide)⟩

/-- C7. When `getPeriod()` returns 0, `setDutyCycle(x)` returns the failure `ErrorCode::Fail` for
every `x` (negative, in range or above 100) and every channel, and makes no access to the timer,
so no compare register is written. -/
theorem setDutyCycle_period_zero_fails (undef : ℚ → ℕ) (self : PWM) (x : ℚ)
    (h : self._tim.getPeriod = 0) :
    setDutyCycle undef self x = (ErrorCode.Fail, []) := by
  unfold setDutyCycle
  by_cases h1 : x < 0
  · rw [if_pos h1]
  · rw [if_neg h1]
    simp [h]

/-- Witness of C7: a timer whose period is 0 and the duty cycle 50. -/
theorem setDutyCycle_period_zero_fails_witness :
    setDutyCycle F32.castWrapping (construct (TIM.succeeding 0 1000000) TIM_Channel.CH1) 50 =
      (ErrorCode.Fail, []) :=
  setDutyCycle_period_zero_fails F32.castWrapping
      (construct (TIM.succeeding 0 1000000) TIM_Channel.CH1) 50 rfl

/-- C8 (the code at the failing input). `Init` returns `OK` for every channel: on a channel
outside `CH1..CH6` its call of `setCCRptr` returns `Fail` and binds nothing, and `Init` drops
that result. -/
theorem Init_unsupported_channel_returns_OK :
    (setCCRptr (construct (TIM.succeeding 0 0) (TIM_Channel.other 7))).1 = ErrorCode.Fail ∧
    (Init (construct (TIM.succeeding 0 0) (TIM_Channel.other 7))).1 = ErrorCode.OK ∧
    (Init (construct (TIM.succeeding 0 0) (TIM_Channel.other 7))).2.1._ccr_ptr = none ∧
    ∀ self : PWM, (Init self).1 = ErrorCode.OK :=
  ⟨rfl, rfl, rfl, fun _ => rfl⟩

/-- C9 (the code at the failing input). (1) With a 1 MHz bus clock and 100 microseconds the
search accepts `p = 1` and programs `A = 100`, while the candidate the search computes for
`psc = 4295` is 3057, at most 65535 and above `A`: the product `4295 * 1000000U` wraps to 32704
in `uint32_t`, where the formula of the code's own comment, `bus * us / (psc * 1e6)`, gives 0.
(2) The same wrap misprograms the timer: with a 1 MHz bus clock and `us = 281430016` the
smallest prescaler with `floor(bus * us / (psc * 1e6)) ≤ 65535` is 4295 (reload 65525, 65540 at
4294), but the search rejects it, since `4295 * 1000000U` is 32704, and accepts `psc = 42949`,
whose product wraps to 4294294336, with reload 65535 where `bus * us / (psc * 1e6)` is 6552;
this whether an out-of-range conversion wraps or saturates. -/
theorem accepted_pair_not_extremal :
    (F32.representable 100 ∧
      setAutoPulseWidth F32.castWrapping (construct (TIM.succeeding 0 1000000) TIM_Channel.CH1)
          100 =
        (ErrorCode.OK,
          [TimerAccess.setPSR 0, TimerAccess.setARR 100,
           TimerAccess.setCCR 50 TIM_Channel.CH1]) ∧
      4295 * 1000000 % 4294967296 = 32704 ∧
      arr_val F32.castWrapping 1000000 100 4295 = 3057 ∧
      ¬ arr_val F32.castWrapping 1000000 100 4295 ≤ 100 ∧
      ⌊(1000000 : ℚ) * 100 / (4295 * 1000000)⌋ = 0) ∧
    (F32.representable 281430016 ∧
      ⌊(1000000 : ℚ) * 281430016 / (4294 * 1000000)⌋ = 65540 ∧
      ⌊(1000000 : ℚ) * 281430016 / (4295 * 1000000)⌋ = 65525 ∧
      42949 * 1000000 % 4294967296 = 4294294336 ∧
      ⌊(1000000 : ℚ) * 281430016 / (42949 * 1000000)⌋ = 6552 ∧
      setAutoPulseWidth F32.castWrapping (construct (TIM.succeeding 0 1000000) TIM_Channel.CH1)
          281430016 =
        (ErrorCode.OK,
          [TimerAccess.setPSR 42948, TimerAccess.setARR 65535,
           TimerAccess.setCCR 32767 TIM_Channel.CH1]) ∧
      setAutoPulseWidth F32.castSaturating (construct (TIM.succeeding 0 1000000) TIM_Channel.CH1)
          281430016 =
        (ErrorCode.OK,
          [TimerAccess.setPSR 42948, TimerAccess.setARR 65535,
           TimerAccess.setCCR 32767 TIM_Channel.CH1])) := by
  refine ⟨⟨by decide!, by decide!, by decide, by decide!, by decide!, by decide!⟩,
    by decide!, by decide!, by decide!, by decide, by decide!, ?_, ?_⟩
  · exact wrapped_prescaler_accepted F32.castWrapping
      (construct (TIM.succeeding 0 1000000) TIM_Channel.CH1) rfl (by decide!) (by decide!)
  · exact wrapped_prescaler_accepted F32.castSaturating
      (construct (TIM.succeeding 0 1000000) TIM_Channel.CH1) rfl (by decide!) (by decide!)

/-- C10 (as amended). Every value `setAutoPulseWidth` passes to the reload setter of the timer
lies in `[0, 65535]`, and every value that `setAutoPulseWidth` or `setPSR` passes to the
prescaler setter lies in `[0, 65535]`, for every argument. (`setARR` passes its 32-bit argument
on as it is.) -/
theorem setter_values_in_range (undef : ℚ → ℕ) (self : PWM) (us : ℚ) (psr : ℕ) (a : TimerAccess)
    (h : a ∈ (setAutoPulseWidth undef self us).2 ∨ a ∈ (setPSR self psr).2) :
    (∀ v, a = TimerAccess.setARR v → v ≤ 65535) ∧
    (∀ v, a = TimerAccess.setPSR v → v ≤ 65535) := by
  rcases h with h | h
  · unfold setAutoPulseWidth at h
    by_cases hpre : F32.mul us 1000 <
        (UnitConverter.Time.s2ns (1 / self._tim.getBusClockFrequency) : ℚ)
    · simp [hpre] at h
    · simp only [hpre, if_false] at h
      rcases loop_cases undef self self._tim.getBusClockFrequency us 65535 1
          with ⟨hf, _⟩ | ⟨k, hk, _, hle, heq⟩
      · rw [hf] at h
        simp at h
      · rw [heq] at h
        simp only [List.mem_cons, List.mem_singleton, List.mem_nil_iff, or_false] at h
        rcases h with rfl | rfl | rfl
        · refine ⟨fun v hv => by simp at hv, fun v hv => ?_⟩
          simp only [TimerAccess.setPSR.injEq] at hv
          omega
        · refine ⟨fun v hv => ?_, fun v hv => by simp at hv⟩
          simp only [TimerAccess.setARR.injEq] at hv
          omega
        · exact ⟨fun v hv => by simp at hv, fun v hv => by simp at hv⟩
  · simp only [setPSR, List.mem_singleton] at h
    subst h
    refine ⟨fun v hv => by simp at hv, fun v hv => ?_⟩
    simp only [TimerAccess.setPSR.injEq] at hv
    omega

/-- Witness of C10: the reload value 100 written for a 1 MHz bus clock and 100 microseconds. -/
theorem setter_values_in_range_witness :
    TimerAccess.setARR 100 ∈
      (setAutoPulseWidth F32.castWrapping
          (construct (TIM.succeeding 0 1000000) TIM_Channel.CH1) 100).2 ∧
    100 ≤ 65535 :=
  ⟨by decide!,
    (setter_values_in_range F32.castWrapping
        (construct (TIM.succeeding 0 1000000) TIM_Channel.CH1) 100 0
      (TimerAccess.setARR 100) (Or.inl (by decide!))).1 100 rfl⟩

/-- Counterexample to C10 as stated: `setARR(70000)` passes 70000, above 65535, to the reload
setter of the timer. -/
theorem setter_values_in_range_counterexample :
    setARR (construct (TIM.succeeding 0 1000000) TIM_Channel.CH1) 70000 =
      (ErrorCode.OK, [TimerAccess.setARR 70000]) ∧ ¬ 70000 ≤ 65535 := by
  refine ⟨by decide, by decide⟩

end PWM

/-! ## More lemmas on the single-precision arithmetic -/

namespace F32

theorem rnd_idem_pos {q : ℚ} (hq : 0 < q) : rnd (rnd q) = rnd q := by
  obtain ⟨h1, h2⟩ := scaled_bounds q hq
  have a : (8388608 : ℤ) ≤ roundHalfEven (q / 2 ^ (ilog2 q - 23)) :=
    le_roundHalfEven (by push_cast; exact h1)
  have b : roundHalfEven (q / 2 ^ (ilog2 q - 23)) ≤ (16777216 : ℤ) :=
    roundHalfEven_le (by push_cast; exact h2.le)
  have hr : rnd q = (roundHalfEven (q / 2 ^ (ilog2 q - 23)) : ℚ) * 2 ^ (ilog2 q - 23) := by
    unfold rnd
    rw [if_neg hq.ne']
  rw [hr]
  rcases b.lt_or_eq with hlt | heq
  · exact rnd_int_mul_zpow _ _ (by rw [abs_of_nonneg (by omega)]; exact hlt)
  · rw [heq]
    have e : ((16777216 : ℤ) : ℚ) * 2 ^ (ilog2 q - 23) = 2 ^ (ilog2 q + 1) := by
      have : ((16777216 : ℤ) : ℚ) = 2 ^ (24 : ℤ) := by norm_num
      rw [this, ← zpow_add₀ (by norm_num : (2 : ℚ) ≠ 0)]
      congr 1
      ring
    rw [e]
    exact rnd_two_zpow _

theorem rnd_idem (q : ℚ) : rnd (rnd q) = rnd q := by
  rcases lt_trichotomy q 0 with h | h | h
  · have := rnd_idem_pos (neg_pos.mpr h)
    rw [rnd_neg, rnd_neg] at this
    linarith
  · rw [h, rnd_zero, rnd_zero]
  · exact rnd_idem_pos h

theorem ofUInt32_exact_le (n : ℕ) (hn : n ≤ 16777216) : ofUInt32 n = n := by
  rcases hn.lt_or_eq with h | h
  · exact ofUInt32_exact n h
  · rw [h]
    have := rnd_two_zpow 24
    norm_num at this
    simpa [ofUInt32] using this

theorem toUInt32_natCast (undef : ℚ → ℕ) (n : ℕ) (hn : n ≤ 4294967295) :
    toUInt32 undef (n : ℚ) = n := by
  have h0 : (0 : ℚ) ≤ (n : ℚ) := Nat.cast_nonneg n
  have h1 : (n : ℚ) < 4294967296 := by
    have : n < 4294967296 := by omega
    exact_mod_cast this
  rw [toUInt32_of_in_range undef (by linarith) h1, Nat.floor_natCast]

end F32

/-! ## More lemmas on the driver -/

namespace PWM

theorem setDutyCycle_accesses (undef : ℚ → ℕ) (self : PWM) (duty_cycle : ℚ) :
    (setDutyCycle undef self duty_cycle).2 = [] ∨
    ∃ ccr, ccr ≤ self._tim.getPeriod ∧
      setDutyCycle undef self duty_cycle =
        (ErrorCode.OK, [TimerAccess.storeCCR self._channel ccr]) := by
  have hclamp : ∀ a b : ℕ, (if a > b then b else a) ≤ b := by
    intro a b
    split_ifs with h
    · exact le_rfl
    · exact not_lt.mp h
  unfold setDutyCycle
  by_cases h1 : duty_cycle < 0
  · left
    rw [if_pos h1]
  · rw [if_neg h1]
    by_cases h2 : self._tim.getPeriod = 0
    · left
      simp [h2]
    · simp only [if_neg h2]
      cases hc : self._channel with
      | other n => left; rfl
      | _ => right; exact ⟨_, hclamp _ _, rfl⟩

theorem arr_candidate_mono (undef : ℚ → ℕ) (bus bus' : ℕ) (us us' : ℚ) (psc : ℕ)
    (hbus : bus ≤ bus') (h0 : 0 ≤ us) (hus : us ≤ us')
    (hin : F32.div (F32.mul (F32.ofUInt32 bus') us') (F32.ofUInt32 (psc * 1000000)) <
      4294967296) :
    arr_candidate undef bus us psc ≤ arr_candidate undef bus' us' psc := by
  unfold arr_candidate
  have hb : F32.ofUInt32 bus ≤ F32.ofUInt32 bus' :=
    F32.rnd_mono (by exact_mod_cast hbus)
  have hb0 : 0 ≤ F32.ofUInt32 bus := F32.rnd_nonneg (Nat.cast_nonneg _)
  have hx0 : 0 ≤ F32.mul (F32.ofUInt32 bus) us := F32.rnd_nonneg (mul_nonneg hb0 h0)
  have hx : F32.mul (F32.ofUInt32 bus) us ≤ F32.mul (F32.ofUInt32 bus') us' :=
    F32.rnd_mono (mul_le_mul hb hus h0 (hb0.trans hb))
  have hd0 : 0 ≤ F32.ofUInt32 (psc * 1000000) := F32.rnd_nonneg (Nat.cast_nonneg _)
  have hq0 : 0 ≤ F32.div (F32.mul (F32.ofUInt32 bus) us) (F32.ofUInt32 (psc * 1000000)) :=
    F32.rnd_nonneg (div_nonneg hx0 hd0)
  exact F32.toUInt32_mono undef (by linarith) hin
    (F32.rnd_mono (div_le_div_of_nonneg_right hx hd0))

theorem accepts_smallest_candidate (undef : ℚ → ℕ) (self : PWM) (us : ℚ) (N : ℕ) (hN : N ≤ 4294)
    (hpre : ¬ F32.mul us 1000 <
      (UnitConverter.Time.s2ns (1 / self._tim.getBusClockFrequency) : ℚ))
    (hex : ∃ psc, 1 ≤ psc ∧ psc ≤ N ∧
      arr_candidate undef self._tim.getBusClockFrequency us psc ≤ 65535) :
    ∃ psc, 1 ≤ psc ∧ psc ≤ N ∧
      arr_candidate undef self._tim.getBusClockFrequency us psc ≤ 65535 ∧
      (∀ q, 1 ≤ q → q < psc → 65535 < arr_candidate undef self._tim.getBusClockFrequency us q) ∧
      setAutoPulseWidth undef self us =
        (self._tim.setCCR
            (arr_candidate undef self._tim.getBusClockFrequency us psc / 2) self._channel,
          [TimerAccess.setPSR (psc - 1),
           TimerAccess.setARR (arr_candidate undef self._tim.getBusClockFrequency us psc),
           TimerAccess.setCCR (arr_candidate undef self._tim.getBusClockFrequency us psc / 2)
             self._channel]) := by
  classical
  have hs := Nat.find_spec hex
  have hmin : ∀ q, 1 ≤ q → q < Nat.find hex →
      65535 < arr_candidate undef self._tim.getBusClockFrequency us q := by
    intro q hq1 hq2
    by_contra hc
    exact Nat.find_min hex hq2 ⟨hq1, by omega, not_lt.mp hc⟩
  refine ⟨Nat.find hex, hs.1, hs.2.1, hs.2.2, hmin, ?_⟩
  unfold setAutoPulseWidth
  simp only [hpre, if_false]
  have key := loop_accept undef self self._tim.getBusClockFrequency us 65535 1 (Nat.find hex - 1)
    (by omega)
    (fun i hi => by
      rw [arr_val_eq_arr_candidate undef _ _ _ (by omega)]
      exact hmin (1 + i) (by omega) (by omega))
    (by
      rw [show 1 + (Nat.find hex - 1) = Nat.find hex by omega,
        arr_val_eq_arr_candidate undef _ _ _ (hs.2.1.trans hN)]
      exact hs.2.2)
  rw [show 1 + (Nat.find hex - 1) = Nat.find hex by omega,
    arr_val_eq_arr_candidate undef _ _ _ (hs.2.1.trans hN)] at key
  exact key

theorem quotient_in_range (bus_clock_hz : ℕ) (us : ℚ) (q : ℕ) (hbus : bus_clock_hz ≤ 999999999)
    (h0 : 0 ≤ us) (hus : us ≤ 99999) (hq : 1 ≤ q) :
    0 ≤ F32.div (F32.mul (F32.ofUInt32 bus_clock_hz) us) (F32.ofUInt32 (q * 1000000)) ∧
    F32.div (F32.mul (F32.ofUInt32 bus_clock_hz) us) (F32.ofUInt32 (q * 1000000)) <
      4294967296 := by
  have e30 : F32.rnd 1073741824 = 1073741824 := by
    have := F32.rnd_two_zpow 30
    norm_num at this
    exact this
  have e47 : F32.rnd 140737488355328 = 140737488355328 := by
    have := F32.rnd_two_zpow 47
    norm_num at this
    exact this
  have e28 : F32.rnd 268435456 = 268435456 := by
    have := F32.rnd_two_zpow 28
    norm_num at this
    exact this
  have hb0 : 0 ≤ F32.ofUInt32 bus_clock_hz := F32.rnd_nonneg (Nat.cast_nonneg _)
  have hb1 : F32.ofUInt32 bus_clock_hz ≤ 1073741824 := by
    apply F32.rnd_le_of_le e30
    have : bus_clock_hz ≤ 1073741824 := by omega
    exact_mod_cast this
  have hx0 : 0 ≤ F32.mul (F32.ofUInt32 bus_clock_hz) us :=
    F32.rnd_nonneg (mul_nonneg hb0 h0)
  have hx1 : F32.mul (F32.ofUInt32 bus_clock_hz) us ≤ 140737488355328 := by
    apply F32.rnd_le_of_le e47
    have : F32.ofUInt32 bus_clock_hz * us ≤ 1073741824 * 131072 :=
      mul_le_mul hb1 (by linarith) h0 (by norm_num)
    linarith
  have hd : (1000000 : ℚ) ≤ F32.ofUInt32 (q * 1000000) := by
    have e : F32.rnd 1000000 = 1000000 := by
      have := F32.ofUInt32_exact 1000000 (by norm_num)
      simpa [F32.ofUInt32] using this
    apply F32.le_rnd_of_le e
    have : 1000000 ≤ q * 1000000 := by omega
    exact_mod_cast this
  have hd0 : (0 : ℚ) < F32.ofUInt32 (q * 1000000) := by linarith
  constructor
  · exact F32.rnd_nonneg (div_nonneg hx0 hd0.le)
  · have : F32.div (F32.mul (F32.ofUInt32 bus_clock_hz) us) (F32.ofUInt32 (q * 1000000)) ≤
        268435456 := by
      apply F32.rnd_le_of_le e28
      rw [div_le_iff₀ hd0]
      nlinarith
    linarith

theorem setDutyCycle_zero (undef : ℚ → ℕ) (self : PWM) (hP : 0 < self._tim.getPeriod)
    (hch : supported self._channel = true) :
    setDutyCycle undef self 0 = (ErrorCode.OK, [TimerAccess.storeCCR self._channel 0]) := by
  have h := setDutyCycle_in_range_aux undef self 0 le_rfl (by norm_num) hP hch
  have hy : F32.mul (F32.div 0 100) (F32.ofUInt32 self._tim.getPeriod) = 0 := by
    simp [F32.div, F32.mul, F32.rnd_zero]
  have h0 : F32.toUInt32 undef
      (F32.mul (F32.div 0 100) (F32.ofUInt32 self._tim.getPeriod)) = 0 := by
    rw [hy, F32.toUInt32_of_in_range undef (by norm_num) (by norm_num)]
    simp
  rw [h, h0, Nat.zero_min]

theorem setDutyCycle_full (undef : ℚ → ℕ) (self : PWM) (hP : 0 < self._tim.getPeriod)
    (hch : supported self._channel = true) :
    setDutyCycle undef self 100 =
      (ErrorCode.OK,
        [TimerAccess.storeCCR self._channel
          (min (F32.toUInt32 undef (F32.ofUInt32 self._tim.getPeriod)) self._tim.getPeriod)]) := by
  have h := setDutyCycle_in_range_aux undef self 100 (by norm_num) le_rfl hP hch
  have h1 : F32.div 100 100 = 1 := by decide!
  have h2 : F32.mul 1 (F32.ofUInt32 self._tim.getPeriod) = F32.ofUInt32 self._tim.getPeriod := by
    unfold F32.mul F32.ofUInt32
    rw [one_mul, F32.rnd_idem]
  rw [h, h1, h2]

theorem setDutyCycle_nonneg (undef : ℚ → ℕ) (self : PWM) (duty_cycle : ℚ) (h0 : 0 ≤ duty_cycle)
    (hP : 0 < self._tim.getPeriod) (hch : supported self._channel = true) :
    setDutyCycle undef self duty_cycle =
      (ErrorCode.OK,
        [TimerAccess.storeCCR self._channel
          (min (F32.toUInt32 undef (F32.mul (F32.div (min duty_cycle 100) 100)
            (F32.ofUInt32 self._tim.getPeriod))) self._tim.getPeriod)]) := by
  rcases le_or_lt duty_cycle 100 with h | h
  · rw [min_eq_left h]
    exact setDutyCycle_in_range_aux undef self duty_cycle h0 h hP hch
  · rw [min_eq_right h.le]
    have heq : setDutyCycle undef self duty_cycle = setDutyCycle undef self 100 := by
      unfold setDutyCycle
      rw [if_neg (not_lt.mpr h0), if_neg (by norm_num : ¬ (100 : ℚ) < 0)]
      simp only [if_pos h, if_neg (lt_irrefl (100 : ℚ))]
    rw [heq]
    exact setDutyCycle_in_range_aux undef self 100 (by norm_num) le_rfl hP hch

theorem setAutoPulseWidth_cases (undef : ℚ → ℕ) (self : PWM) (us : ℚ) :
    setAutoPulseWidth undef self us = (ErrorCode.InvalidParam, []) ∨
    setAutoPulseWidth undef self us = (ErrorCode.Fail, []) ∨
    ∃ psc arr, 1 ≤ psc ∧ psc ≤ 65535 ∧ arr ≤ 65535 ∧
      arr = arr_val undef self._tim.getBusClockFrequency us psc ∧
      setAutoPulseWidth undef self us =
        (self._tim.setCCR (arr / 2) self._channel,
          [TimerAccess.setPSR (psc - 1), TimerAccess.setARR arr,
           TimerAccess.setCCR (arr / 2) self._channel]) := by
  unfold setAutoPulseWidth
  by_cases hpre : F32.mul us 1000 <
      (UnitConverter.Time.s2ns (1 / self._tim.getBusClockFrequency) : ℚ)
  · left
    simp [hpre]
  · right
    simp only [hpre, if_false]
    rcases loop_cases undef self self._tim.getBusClockFrequency us 65535 1 with
      ⟨hf, _⟩ | ⟨k, hk, _, hle, heq⟩
    · exact Or.inl hf
    · exact Or.inr ⟨1 + k, _, by omega, by omega, hle, rfl, heq⟩

theorem quotient_error (bus_clock_hz : ℕ) (us : ℚ) (q : ℕ) (h0 : 0 ≤ us) (hq : 1 ≤ q) :
    |F32.div (F32.mul (F32.ofUInt32 bus_clock_hz) us) (F32.ofUInt32 (q * 1000000)) -
        (bus_clock_hz : ℚ) * us / (q * 1000000)| ≤
      (bus_clock_hz : ℚ) * us / (q * 1000000) / 2097152 := by
  have hB : (0 : ℚ) ≤ (bus_clock_hz : ℚ) := Nat.cast_nonneg _
  have hD : (0 : ℚ) < (q : ℚ) * 1000000 := by
    have : (1 : ℚ) ≤ (q : ℚ) := by exact_mod_cast hq
    linarith
  have hDc : (((q * 1000000 : ℕ)) : ℚ) = (q : ℚ) * 1000000 := by push_cast; ring
  have hb := abs_le.mp (F32.rnd_rel_err_nonneg hB)
  have hb0 : 0 ≤ F32.ofUInt32 bus_clock_hz := F32.rnd_nonneg hB
  have hbu0 : 0 ≤ F32.ofUInt32 bus_clock_hz * us := mul_nonneg hb0 h0
  have hx := abs_le.mp (F32.rnd_rel_err_nonneg hbu0)
  have hx0 : 0 ≤ F32.mul (F32.ofUInt32 bus_clock_hz) us := F32.rnd_nonneg hbu0
  have hd := abs_le.mp
      (F32.rnd_rel_err_nonneg (le_of_lt (hDc ▸ hD) : (0 : ℚ) ≤ ((q * 1000000 : ℕ) : ℚ)))
  have hd0 : 0 < F32.ofUInt32 (q * 1000000) := F32.rnd_pos (hDc ▸ hD)
  have hxd0 : 0 ≤ F32.mul (F32.ofUInt32 bus_clock_hz) us / F32.ofUInt32 (q * 1000000) :=
    div_nonneg hx0 hd0.le
  have hy := abs_le.mp (F32.rnd_rel_err_nonneg hxd0)
  have hE0 : 0 ≤ (bus_clock_hz : ℚ) * us / (q * 1000000) :=
    div_nonneg (mul_nonneg hB h0) hD.le
  have hED : (bus_clock_hz : ℚ) * us / (q * 1000000) * ((q : ℚ) * 1000000) =
      (bus_clock_hz : ℚ) * us := by
    field_simp
  have hb1 : F32.ofUInt32 bus_clock_hz ≤ (bus_clock_hz : ℚ) * (16777217 / 16777216) := by
    have := hb.2
    unfold F32.ofUInt32
    linarith
  have hb2 : (bus_clock_hz : ℚ) * (16777215 / 16777216) ≤ F32.ofUInt32 bus_clock_hz := by
    have := hb.1
    unfold F32.ofUInt32
    linarith
  have hx1 : F32.mul (F32.ofUInt32 bus_clock_hz) us ≤
      (bus_clock_hz : ℚ) * us * (16777217 / 16777216) ^ 2 := by
    have h1 := hx.2
    have h2 : F32.ofUInt32 bus_clock_hz * us ≤
        (bus_clock_hz : ℚ) * (16777217 / 16777216) * us :=
      mul_le_mul_of_nonneg_right hb1 h0
    unfold F32.mul
    nlinarith
  have hx2 : (bus_clock_hz : ℚ) * us * (16777215 / 16777216) ^ 2 ≤
      F32.mul (F32.ofUInt32 bus_clock_hz) us := by
    have h1 := hx.1
    have h2 : (bus_clock_hz : ℚ) * (16777215 / 16777216) * us ≤
        F32.ofUInt32 bus_clock_hz * us :=
      mul_le_mul_of_nonneg_right hb2 h0
    unfold F32.mul
    nlinarith
  have hd1 : F32.ofUInt32 (q * 1000000) ≤ (q : ℚ) * 1000000 * (16777217 / 16777216) := by
    have := hd.2
    rw [hDc] at this
    unfold F32.ofUInt32
    rw [hDc]
    linarith
  have hd2 : (q : ℚ) * 1000000 * (16777215 / 16777216) ≤ F32.ofUInt32 (q * 1000000) := by
    have := hd.1
    rw [hDc] at this
    unfold F32.ofUInt32
    rw [hDc]
    linarith
  have hq1 : F32.mul (F32.ofUInt32 bus_clock_hz) us / F32.ofUInt32 (q * 1000000) ≤
      (bus_clock_hz : ℚ) * us / (q * 1000000) *
        ((16777217 / 16777216) ^ 2 / (16777215 / 16777216)) := by
    rw [div_le_iff₀ hd0]
    calc F32.mul (F32.ofUInt32 bus_clock_hz) us
        ≤ (bus_clock_hz : ℚ) * us * (16777217 / 16777216) ^ 2 := hx1
      _ = (bus_clock_hz : ℚ) * us / (q * 1000000) *
            ((16777217 / 16777216) ^ 2 / (16777215 / 16777216)) *
            ((q : ℚ) * 1000000 * (16777215 / 16777216)) := by
          field_simp
          ring
      _ ≤ _ := mul_le_mul_of_nonneg_left hd2 (mul_nonneg hE0 (by norm_num))
  have hq2 : (bus_clock_hz : ℚ) * us / (q * 1000000) *
        ((16777215 / 16777216) ^ 2 / (16777217 / 16777216)) ≤
      F32.mul (F32.ofUInt32 bus_clock_hz) us / F32.ofUInt32 (q * 1000000) := by
    rw [le_div_iff₀ hd0]
    calc (bus_clock_hz : ℚ) * us / (q * 1000000) *
          ((16777215 / 16777216) ^ 2 / (16777217 / 16777216)) * F32.ofUInt32 (q * 1000000)
        ≤ (bus_clock_hz : ℚ) * us / (q * 1000000) *
          ((16777215 / 16777216) ^ 2 / (16777217 / 16777216)) *
            ((q : ℚ) * 1000000 * (16777217 / 16777216)) :=
          mul_le_mul_of_nonneg_left hd1 (mul_nonneg hE0 (by norm_num))
      _ = (bus_clock_hz : ℚ) * us * (16777215 / 16777216) ^ 2 := by
          field_simp
          ring
      _ ≤ _ := hx2
  have hy1 : F32.div (F32.mul (F32.ofUInt32 bus_clock_hz) us) (F32.ofUInt32 (q * 1000000)) ≤
      F32.mul (F32.ofUInt32 bus_clock_hz) us / F32.ofUInt32 (q * 1000000) *
        (16777217 / 16777216) := by
    have := hy.2
    unfold F32.div
    linarith
  have hy2 : F32.mul (F32.ofUInt32 bus_clock_hz) us / F32.ofUInt32 (q * 1000000) *
        (16777215 / 16777216) ≤
      F32.div (F32.mul (F32.ofUInt32 bus_clock_hz) us) (F32.ofUInt32 (q * 1000000)) := by
    have := hy.1
    unfold F32.div
    linarith
  rw [abs_le]
  constructor
  · have h3 := mul_le_mul_of_nonneg_right hq2 (by norm_num : (0 : ℚ) ≤ 16777215 / 16777216)
    have h4 : (bus_clock_hz : ℚ) * us / (q * 1000000) * (1 - 1 / 2097152) ≤
        (bus_clock_hz : ℚ) * us / (q * 1000000) *
          ((16777215 / 16777216) ^ 2 / (16777217 / 16777216)) * (16777215 / 16777216) := by
      rw [mul_assoc]
      exact mul_le_mul_of_nonneg_left (by norm_num) hE0
    linarith
  · have h3 := mul_le_mul_of_nonneg_right hq1 (by norm_num : (0 : ℚ) ≤ 16777217 / 16777216)
    have h4 : (bus_clock_hz : ℚ) * us / (q * 1000000) *
          ((16777217 / 16777216) ^ 2 / (16777215 / 16777216)) * (16777217 / 16777216) ≤
        (bus_clock_hz : ℚ) * us / (q * 1000000) * (1 + 1 / 2097152) := by
      rw [mul_assoc]
      exact mul_le_mul_of_nonneg_left (by norm_num) hE0
    linarith

theorem setDutyCycle_monotone_of_period_lt (undef : ℚ → ℕ) (self : PWM) (d1 d2 : ℚ)
    (hP : 0 < self._tim.getPeriod) (hlim : self._tim.getPeriod < 4294967168)
    (hch : supported self._channel = true) (h0 : 0 ≤ d1) (h12 : d1 ≤ d2) :
    ∃ c1 c2,
      setDutyCycle undef self d1 = (ErrorCode.OK, [TimerAccess.storeCCR self._channel c1]) ∧
      setDutyCycle undef self d2 = (ErrorCode.OK, [TimerAccess.storeCCR self._channel c2]) ∧
      c1 ≤ c2 ∧ c2 ≤ self._tim.getPeriod := by
  refine ⟨_, _, setDutyCycle_nonneg undef self d1 h0 hP hch,
    setDutyCycle_nonneg undef self d2 (h0.trans h12) hP hch, ?_, min_le_right _ _⟩
  apply min_le_min _ le_rfl
  have h1 := duty_product_in_range (min d1 100) self._tim.getPeriod
    (le_min h0 (by norm_num)) (min_le_right _ _) hlim
  have h2 := duty_product_in_range (min d2 100) self._tim.getPeriod
    (le_min (h0.trans h12) (by norm_num)) (min_le_right _ _) hlim
  apply F32.toUInt32_mono undef (by linarith [h1.1]) h2.2
  apply F32.rnd_mono
  have hq : F32.div (min d1 100) 100 ≤ F32.div (min d2 100) 100 :=
    F32.rnd_mono (div_le_div_of_nonneg_right (min_le_min h12 le_rfl) (by norm_num))
  exact mul_le_mul_of_nonneg_right hq (F32.rnd_nonneg (Nat.cast_nonneg _))

end PWM

/-! ## The claims, continued -/

namespace PWM

/-- C11. For every input and every initial register state, `setDutyCycle` makes no access to the
timer or exactly one, the store into the compare register of the bound channel; so the
prescaler, the reload register, the enable state and the compare registers of all other channels
are the same after the call as before, whether it succeeds or fails. -/
theorem setDutyCycle_frame (undef : ℚ → ℕ) (self : PWM) (duty_cycle : ℚ) (r : TimerRegs) :
    ((setDutyCycle undef self duty_cycle).2 = [] ∨
      ∃ ccr, (setDutyCycle undef self duty_cycle).2 = [TimerAccess.storeCCR self._channel ccr]) ∧
    ∃ r', TimerRegs.run self._tim (setDutyCycle undef self duty_cycle).2 r = some r' ∧
      r'.PSC = r.PSC ∧ r'.ARR = r.ARR ∧ r'.enabled = r.enabled ∧
      ∀ ch, ch ≠ self._channel → r'.CCR ch = r.CCR ch := by
  rcases setDutyCycle_accesses undef self duty_cycle with h | ⟨ccr, _, h⟩
  · refine ⟨Or.inl h, r, ?_, rfl, rfl, rfl, fun _ _ => rfl⟩
    rw [h]
    rfl
  · refine ⟨Or.inr ⟨ccr, by rw [h]⟩,
      { r with CCR := Function.update r.CCR self._channel ccr }, ?_, rfl, rfl, rfl, ?_⟩
    · rw [h]
      rfl
    · intro ch hch
      exact Function.update_noteq hch _ _

/-- C12 (as amended). For every bus clock from 10 MHz to 999_999_999 Hz and every pulse width
`us` from one bus-clock tick up to 99_999 microseconds, the precheck passes and
`setAutoPulseWidth` accepts a prescaler `p ≤ 1526`.  For every `psc` the search visits, up to and
including `p`, the 32-bit product `psc * 1000000` is the mathematical product (below `2^32`), the
quotient `y(psc)` that is converted to `uint32_t`, which is
`bus_clock_hz * us / (psc * 1000000)` evaluated in single precision, lies in `[0, 2^32)` and
within a `2^-21` part of the exact quotient, and the candidate of the code is `floor(y(psc))`,
whatever a conversion outside `[0, 2^32)` yields.  The programmed prescaler and reload are
`p - 1` and `floor(y(p))`, for the smallest `p` with `floor(y(p)) ≤ 65535`. -/
theorem setAutoPulseWidth_no_overflow (undef : ℚ → ℕ) (self : PWM) (us : ℚ)
    (hlo : 10000000 ≤ self._tim.getBusClockFrequency)
    (hhi : self._tim.getBusClockFrequency ≤ 999999999)
    (htick : (1000000 : ℚ) ≤ (self._tim.getBusClockFrequency : ℚ) * us)
    (hus : us ≤ 99999) :
    ¬ F32.mul us 1000 < (UnitConverter.Time.s2ns (1 / self._tim.getBusClockFrequency) : ℚ) ∧
    ∃ p, 1 ≤ p ∧ p ≤ 1526 ∧
      (∀ q, 1 ≤ q → q ≤ p →
        q * 1000000 < 4294967296 ∧ q * 1000000 % 4294967296 = q * 1000000 ∧
        0 ≤ F32.div (F32.mul (F32.ofUInt32 self._tim.getBusClockFrequency) us)
          (F32.ofUInt32 (q * 1000000)) ∧
        F32.div (F32.mul (F32.ofUInt32 self._tim.getBusClockFrequency) us)
          (F32.ofUInt32 (q * 1000000)) < 4294967296 ∧
        |F32.div (F32.mul (F32.ofUInt32 self._tim.getBusClockFrequency) us)
            (F32.ofUInt32 (q * 1000000)) -
          (self._tim.getBusClockFrequency : ℚ) * us / (q * 1000000)| ≤
          (self._tim.getBusClockFrequency : ℚ) * us / (q * 1000000) / 2097152 ∧
        arr_val undef self._tim.getBusClockFrequency us q =
          ⌊F32.div (F32.mul (F32.ofUInt32 self._tim.getBusClockFrequency) us)
            (F32.ofUInt32 (q * 1000000))⌋₊) ∧
      ⌊F32.div (F32.mul (F32.ofUInt32 self._tim.getBusClockFrequency) us)
        (F32.ofUInt32 (p * 1000000))⌋₊ ≤ 65535 ∧
      (∀ q, 1 ≤ q → q < p →
        65535 < ⌊F32.div (F32.mul (F32.ofUInt32 self._tim.getBusClockFrequency) us)
          (F32.ofUInt32 (q * 1000000))⌋₊) ∧
      setAutoPulseWidth undef self us =
        (self._tim.setCCR
            (⌊F32.div (F32.mul (F32.ofUInt32 self._tim.getBusClockFrequency) us)
              (F32.ofUInt32 (p * 1000000))⌋₊ / 2) self._channel,
          [TimerAccess.setPSR (p - 1),
           TimerAccess.setARR
             ⌊F32.div (F32.mul (F32.ofUInt32 self._tim.getBusClockFrequency) us)
               (F32.ofUInt32 (p * 1000000))⌋₊,
           TimerAccess.setCCR
             (⌊F32.div (F32.mul (F32.ofUInt32 self._tim.getBusClockFrequency) us)
               (F32.ofUInt32 (p * 1000000))⌋₊ / 2) self._channel]) := by
  have hbq : (0 : ℚ) < (self._tim.getBusClockFrequency : ℚ) := by
    have : 0 < self._tim.getBusClockFrequency := by omega
    exact_mod_cast this
  have h0 : 0 ≤ us := by
    by_contra hc
    have : (self._tim.getBusClockFrequency : ℚ) * us < 0 :=
      mul_neg_of_pos_of_neg hbq (not_le.mp hc)
    linarith
  have hpre := precheck_passes_of_nonneg self._tim.getBusClockFrequency us (by omega) h0
  have hfloor : ∀ q, 1 ≤ q →
      arr_candidate undef self._tim.getBusClockFrequency us q =
        ⌊F32.div (F32.mul (F32.ofUInt32 self._tim.getBusClockFrequency) us)
          (F32.ofUInt32 (q * 1000000))⌋₊ := by
    intro q hq1
    obtain ⟨ha, hb⟩ := quotient_in_range self._tim.getBusClockFrequency us q hhi h0 hus hq1
    unfold arr_candidate
    exact F32.toUInt32_of_in_range undef (by linarith) hb
  have hcand : arr_candidate undef self._tim.getBusClockFrequency us 1526 ≤ 65535 := by
    have h1 := arr_candidate_mono undef self._tim.getBusClockFrequency 999999999 us 99999 1526
      hhi h0 hus (by decide!)
    have h2 : arr_candidate undef 999999999 99999 1526 = 65530 := by
      rw [arr_candidate, F32.toUInt32_congr undef F32.castWrapping (by decide!) (by decide!)]
      decide!
    omega
  obtain ⟨p, hp1, hp2, hp3, hp4, hp5⟩ :=
    accepts_smallest_candidate undef self us 1526 (by norm_num) hpre
      ⟨1526, by norm_num, le_rfl, hcand⟩
  refine ⟨hpre, p, hp1, hp2, ?_, ?_, ?_, ?_⟩
  · intro q hq1 hq2
    have hq : q * 1000000 < 4294967296 := by omega
    obtain ⟨ha, hb⟩ := quotient_in_range self._tim.getBusClockFrequency us q hhi h0 hus hq1
    refine ⟨hq, Nat.mod_eq_of_lt hq, ha, hb, quotient_error _ us q h0 hq1, ?_⟩
    rw [arr_val_eq_arr_candidate undef _ _ _ (by omega), hfloor q hq1]
  · rw [← hfloor p hp1]
    exact hp3
  · intro q hq1 hq2
    rw [← hfloor q hq1]
    exact hp4 q hq1 hq2
  · rw [← hfloor p hp1]
    exact hp5

/-- Witness of C12: a 180 MHz bus clock and a pulse width of 20 ms. -/
theorem setAutoPulseWidth_no_overflow_witness :
    ∃ p, 1 ≤ p ∧ p ≤ 1526 ∧
      ⌊F32.div (F32.mul (F32.ofUInt32 180000000) 20000) (F32.ofUInt32 (p * 1000000))⌋₊ ≤ 65535 ∧
      setAutoPulseWidth F32.castWrapping (construct (TIM.succeeding 0 180000000) TIM_Channel.CH1)
          20000 =
        (ErrorCode.OK,
          [TimerAccess.setPSR (p - 1),
           TimerAccess.setARR
             ⌊F32.div (F32.mul (F32.ofUInt32 180000000) 20000) (F32.ofUInt32 (p * 1000000))⌋₊,
           TimerAccess.setCCR
             (⌊F32.div (F32.mul (F32.ofUInt32 180000000) 20000)
               (F32.ofUInt32 (p * 1000000))⌋₊ / 2) TIM_Channel.CH1]) := by
  obtain ⟨_, p, h1, h2, _, h4, _, h6⟩ :=
    setAutoPulseWidth_no_overflow F32.castWrapping
      (construct (TIM.succeeding 0 180000000) TIM_Channel.CH1) 20000
      (by decide) (by decide) (by norm_num [construct, TIM.succeeding]) (by norm_num)
  exact ⟨p, h1, h2, h4, h6⟩

/-- Counterexample to C12 as stated: inside the stated range the programmed pair is not the one
computed with unbounded integers. (1) With a 180 MHz bus clock and 25 microseconds the exact
candidate of `psc = 1` is `floor(180000000 * 25 / 1000000) = 4500`, but the reload written is
4499: the product `4.5e9` is rounded to the `float` 4499999744. (2) With a bus clock of
65_535_999 Hz and 1000 microseconds the exact candidate of `psc = 1` is 65535, which is accepted
in exact arithmetic, but the code computes 65536 for it and programs `psc = 2` with reload
32768. -/
theorem setAutoPulseWidth_no_overflow_counterexample :
    (F32.representable 25 ∧ 10000000 ≤ 180000000 ∧ 180000000 ≤ 999999999 ∧
      (1000000 : ℚ) ≤ 180000000 * 25 ∧ (25 : ℚ) ≤ 99999 ∧
      ⌊(180000000 : ℚ) * 25 / (1 * 1000000)⌋ = 4500 ∧
      setAutoPulseWidth F32.castWrapping (construct (TIM.succeeding 0 180000000) TIM_Channel.CH1)
          25 =
        (ErrorCode.OK,
          [TimerAccess.setPSR 0, TimerAccess.setARR 4499,
           TimerAccess.setCCR 2249 TIM_Channel.CH1])) ∧
    (F32.representable 1000 ∧ 10000000 ≤ 65535999 ∧ 65535999 ≤ 999999999 ∧
      (1000000 : ℚ) ≤ 65535999 * 1000 ∧ (1000 : ℚ) ≤ 99999 ∧
      ⌊(65535999 : ℚ) * 1000 / (1 * 1000000)⌋ = 65535 ∧
      setAutoPulseWidth F32.castWrapping (construct (TIM.succeeding 0 65535999) TIM_Channel.CH1)
          1000 =
        (ErrorCode.OK,
          [TimerAccess.setPSR 1, TimerAccess.setARR 32768,
           TimerAccess.setCCR 16384 TIM_Channel.CH1])) := by
  refine ⟨⟨by decide!, by decide, by decide, by norm_num, by norm_num, by decide!, by decide!⟩,
    by decide!, by decide, by decide, by norm_num, by norm_num, by decide!, by decide!⟩

/-- C13. For `bus_clock_hz = 180_000_000` and `us = 1_000_000`, `setAutoPulseWidth` skips
`psc = 1` (candidate 180_000_000) and every `psc` up to 2746 (their candidates exceed 65535, the
one of 2746 being 65549), accepts `psc = 2747`, the smallest prescaler with
`floor(180_000_000 * 1_000_000 / (psc * 1_000_000)) ≤ 65535`, and programs prescaler register
2746, reload 65526 (that floor) and compare 32763, returning the result of the compare write. -/
theorem setAutoPulseWidth_one_second (undef : ℚ → ℕ) (self : PWM)
    (hbus : self._tim.getBusClockFrequency = 180000000) :
    arr_val undef 180000000 1000000 1 = 180000000 ∧
    (∀ q, 1 ≤ q → q < 2747 → 65535 < arr_val undef 180000000 1000000 q) ∧
    (∀ q : ℕ, 1 ≤ q → q < 2747 →
      (65535 : ℤ) < ⌊(180000000 : ℚ) * 1000000 / (q * 1000000)⌋) ∧
    ⌊(180000000 : ℚ) * 1000000 / (2747 * 1000000)⌋ = 65526 ∧
    setAutoPulseWidth undef self 1000000 =
      (self._tim.setCCR 32763 self._channel,
        [TimerAccess.setPSR 2746, TimerAccess.setARR 65526,
         TimerAccess.setCCR 32763 self._channel]) := by
  have h1 : arr_val undef 180000000 1000000 1 = 180000000 := by
    rw [arr_val_congr undef F32.castWrapping 180000000 1000000 1 (by decide!) (by decide!)]
    decide!
  have h2746 : arr_val undef 180000000 1000000 2746 = 65549 := by
    rw [arr_val_congr undef F32.castWrapping 180000000 1000000 2746 (by decide!) (by decide!)]
    decide!
  have h2747 : arr_val undef 180000000 1000000 2747 = 65526 := by
    rw [arr_val_congr undef F32.castWrapping 180000000 1000000 2747 (by decide!) (by decide!)]
    decide!
  have hskip : ∀ q, 1 ≤ q → q < 2747 → 65535 < arr_val undef 180000000 1000000 q := by
    intro q hq1 hq2
    have := arr_val_antitone undef 180000000 1000000 q 2746 (by norm_num) hq1 (by omega)
      (by norm_num) (by decide!)
    omega
  have hpre : ¬ F32.mul 1000000 1000 < (UnitConverter.Time.s2ns (1 / 180000000) : ℚ) := by
    decide!
  refine ⟨h1, hskip, ?_, by decide!, ?_⟩
  · intro q hq1 hq2
    have hq0 : (0 : ℚ) < (q : ℚ) * 1000000 := by
      have : 0 < q := hq1
      have : (0 : ℚ) < (q : ℚ) := by exact_mod_cast this
      linarith
    have hq3 : (q : ℚ) ≤ 2746 := by
      have : q ≤ 2746 := by omega
      exact_mod_cast this
    have : ((65536 : ℤ) : ℚ) ≤ (180000000 : ℚ) * 1000000 / (q * 1000000) := by
      rw [le_div_iff₀ hq0]
      push_cast
      nlinarith
    have := Int.le_floor.mpr this
    omega
  · unfold setAutoPulseWidth
    simp only [hbus, hpre, if_false]
    have key := loop_accept undef self 180000000 1000000 65535 1 2746 (by norm_num)
      (fun i hi => hskip (1 + i) (by omega) (by omega))
      (by rw [show 1 + 2746 = 2747 by norm_num, h2747]; norm_num)
    rw [show 1 + 2746 = 2747 by norm_num, h2747] at key
    exact key

/-- Witness of C13: a timer with a 180 MHz bus clock whose calls succeed, on `CH1`. -/
theorem setAutoPulseWidth_one_second_witness :
    setAutoPulseWidth F32.castWrapping
        (construct (TIM.succeeding 0 180000000) TIM_Channel.CH1) 1000000 =
      (ErrorCode.OK,
        [TimerAccess.setPSR 2746, TimerAccess.setARR 65526,
         TimerAccess.setCCR 32763 TIM_Channel.CH1]) :=
  (setAutoPulseWidth_one_second F32.castWrapping
      (construct (TIM.succeeding 0 180000000) TIM_Channel.CH1)
    rfl).2.2.2.2

/-- C14. For `bus_clock_hz = 1_000_000` and `us = 100`, `setAutoPulseWidth` accepts `psc = 1`
in the first iteration and programs prescaler register 0, reload 100 and compare 50, returning
the result of the compare write. -/
theorem setAutoPulseWidth_100us_at_1MHz (undef : ℚ → ℕ) (self : PWM)
    (hbus : self._tim.getBusClockFrequency = 1000000) :
    arr_val undef 1000000 100 1 = 100 ∧
    setAutoPulseWidth undef self 100 =
      (self._tim.setCCR 50 self._channel,
        [TimerAccess.setPSR 0, TimerAccess.setARR 100, TimerAccess.setCCR 50 self._channel]) := by
  have h1 : arr_val undef 1000000 100 1 = 100 := by
    rw [arr_val_congr undef F32.castWrapping 1000000 100 1 (by decide!) (by decide!)]
    decide!
  have hpre : ¬ F32.mul 100 1000 < (UnitConverter.Time.s2ns (1 / 1000000) : ℚ) := by decide!
  refine ⟨h1, ?_⟩
  unfold setAutoPulseWidth
  simp only [hbus, hpre, if_false]
  have key := loop_accept undef self 1000000 100 65535 1 0 (by norm_num)
    (fun i hi => absurd hi (Nat.not_lt_zero i))
    (by rw [show 1 + 0 = 1 by norm_num, h1]; norm_num)
  rw [show 1 + 0 = 1 by norm_num, h1] at key
  exact key

/-- Witness of C14: a timer with a 1 MHz bus clock whose calls succeed, on `CH2`. -/
theorem setAutoPulseWidth_100us_at_1MHz_witness :
    setAutoPulseWidth F32.castWrapping (construct (TIM.succeeding 0 1000000) TIM_Channel.CH2) 100 =
      (ErrorCode.OK,
        [TimerAccess.setPSR 0, TimerAccess.setARR 100, TimerAccess.setCCR 50 TIM_Channel.CH2]) :=
  (setAutoPulseWidth_100us_at_1MHz F32.castWrapping
      (construct (TIM.succeeding 0 1000000) TIM_Channel.CH2)
    rfl).2

/-- C15 (as amended). For every period `P > 0` (an unsigned 32-bit value) and every channel
`CH1..CH6`, `setDutyCycle(0.0)` writes compare 0; `setDutyCycle(100.0)` writes exactly `P`
whenever `P ≤ 2^24 = 16777216` (`P` is then a `float`), and for every `P < 2^32 - 128` it writes
`min(floor(float(P)), P)`, a value `v ≤ P` with `P - P / 2^24 - 1 < v`; all this whatever a
conversion outside `[0, 2^32)` yields. -/
theorem setDutyCycle_endpoints (undef : ℚ → ℕ) (self : PWM) (hP : 0 < self._tim.getPeriod)
    (hP32 : self._tim.getPeriod < 4294967296) (hch : supported self._channel = true) :
    setDutyCycle undef self 0 = (ErrorCode.OK, [TimerAccess.storeCCR self._channel 0]) ∧
    (self._tim.getPeriod ≤ 16777216 →
      setDutyCycle undef self 100 =
        (ErrorCode.OK, [TimerAccess.storeCCR self._channel self._tim.getPeriod])) ∧
    (self._tim.getPeriod < 4294967168 →
      ∃ v, setDutyCycle undef self 100 =
          (ErrorCode.OK, [TimerAccess.storeCCR self._channel v]) ∧
        v = min ⌊F32.ofUInt32 self._tim.getPeriod⌋₊ self._tim.getPeriod ∧
        v ≤ self._tim.getPeriod ∧
        (self._tim.getPeriod : ℚ) - (self._tim.getPeriod : ℚ) / 16777216 - 1 < (v : ℚ)) := by
  have _ := hP32
  refine ⟨setDutyCycle_zero undef self hP hch, ?_, ?_⟩
  · intro hle
    rw [setDutyCycle_full undef self hP hch, F32.ofUInt32_exact_le _ hle,
      F32.toUInt32_natCast undef _ (by omega), min_self]
  · intro hlim
    have hPq : (0 : ℚ) ≤ (self._tim.getPeriod : ℚ) := Nat.cast_nonneg _
    have hf0 : 0 ≤ F32.ofUInt32 self._tim.getPeriod := F32.rnd_nonneg hPq
    have hf1 : F32.ofUInt32 self._tim.getPeriod ≤ 4294967040 :=
      F32.ofUInt32_le_of_lt _ hlim
    have hconv : F32.toUInt32 undef (F32.ofUInt32 self._tim.getPeriod) =
        ⌊F32.ofUInt32 self._tim.getPeriod⌋₊ :=
      F32.toUInt32_of_in_range undef (by linarith) (by linarith)
    refine ⟨_, setDutyCycle_full undef self hP hch, by rw [hconv], min_le_right _ _, ?_⟩
    rw [hconv]
    have herr := abs_le.mp (F32.rnd_rel_err_nonneg hPq)
    have hfl : F32.ofUInt32 self._tim.getPeriod - 1 <
        (⌊F32.ofUInt32 self._tim.getPeriod⌋₊ : ℚ) := by
      have := Nat.lt_floor_add_one (F32.ofUInt32 self._tim.getPeriod)
      linarith
    have hlow : (self._tim.getPeriod : ℚ) - (self._tim.getPeriod : ℚ) / 16777216 ≤
        F32.ofUInt32 self._tim.getPeriod := by
      have := herr.1
      unfold F32.ofUInt32
      linarith
    rcases le_total ⌊F32.ofUInt32 self._tim.getPeriod⌋₊ self._tim.getPeriod with hmin | hmin
    · rw [min_eq_left hmin]
      linarith
    · rw [min_eq_right hmin]
      have : (0 : ℚ) ≤ (self._tim.getPeriod : ℚ) / 16777216 := by positivity
      linarith

/-- Witness of C15: the period 1000 on `CH4`. -/
theorem setDutyCycle_endpoints_witness :
    setDutyCycle F32.castWrapping (construct (TIM.succeeding 1000 0) TIM_Channel.CH4) 0 =
      (ErrorCode.OK, [TimerAccess.storeCCR TIM_Channel.CH4 0]) ∧
    setDutyCycle F32.castWrapping (construct (TIM.succeeding 1000 0) TIM_Channel.CH4) 100 =
      (ErrorCode.OK, [TimerAccess.storeCCR TIM_Channel.CH4 1000]) ∧
    ∃ v, setDutyCycle F32.castWrapping (construct (TIM.succeeding 1000 0) TIM_Channel.CH4) 100 =
        (ErrorCode.OK, [TimerAccess.storeCCR TIM_Channel.CH4 v]) ∧
      v = min ⌊F32.ofUInt32 1000⌋₊ 1000 ∧ v ≤ 1000 ∧
      ((1000 : ℕ) : ℚ) - ((1000 : ℕ) : ℚ) / 16777216 - 1 < (v : ℚ) :=
  ⟨(setDutyCycle_endpoints F32.castWrapping (construct (TIM.succeeding 1000 0) TIM_Channel.CH4)
      (by decide) (by decide) (by decide)).1,
    (setDutyCycle_endpoints F32.castWrapping (construct (TIM.succeeding 1000 0) TIM_Channel.CH4)
      (by decide) (by decide) (by decide)).2.1 (by decide),
    (setDutyCycle_endpoints F32.castWrapping (construct (TIM.succeeding 1000 0) TIM_Channel.CH4)
      (by decide) (by decide) (by decide)).2.2 (by decide)⟩

/-- Counterexample to C15 as stated. (1) Rounding: with the period `P = 16777217 = 2^24 + 1` on
`CH1`, `setDutyCycle(100.0)` writes 16777216, not `P`: the conversion of `P` to `float` rounds to
`2^24`. (2) Conversion: with the period `P = 2^32 - 1` the conversion of `P` to `float` rounds
to `2^32`, outside the range of `uint32_t`, and where the conversion back keeps the low 32 bits
`setDutyCycle(100.0)` writes 0. -/
theorem setDutyCycle_endpoints_counterexample :
    (0 < 16777217 ∧ 16777217 < 4294967296 ∧
      F32.ofUInt32 16777217 = 16777216 ∧
      setDutyCycle F32.castWrapping (construct (TIM.succeeding 16777217 0) TIM_Channel.CH1) 100 =
        (ErrorCode.OK, [TimerAccess.storeCCR TIM_Channel.CH1 16777216]) ∧
      16777216 ≠ 16777217) ∧
    (0 < 4294967295 ∧ 4294967295 < 4294967296 ∧
      F32.ofUInt32 4294967295 = 4294967296 ∧
      setDutyCycle F32.castWrapping (construct (TIM.succeeding 4294967295 0) TIM_Channel.CH1)
          100 = (ErrorCode.OK, [TimerAccess.storeCCR TIM_Channel.CH1 0]) ∧
      0 ≠ 4294967295) := by
  refine ⟨⟨by decide, by decide, by decide!, by decide!, by decide⟩,
    by decide, by decide, by decide!, by decide!, by decide⟩

/-- C16 (the code at the failing input). On a timer whose `setCCR` reports `Fail`,
`PWM::setCCR(5)` calls `setCCR(5, CH1)` of the timer and returns `OK`; it returns `OK` for every
timer and every argument, whatever the timer's `setCCR` reports. -/
theorem setCCR_drops_timer_result :
    (TIM.failingSetCCR 0 0).setCCR 5 TIM_Channel.CH1 = ErrorCode.Fail ∧
    setCCR (construct (TIM.failingSetCCR 0 0) TIM_Channel.CH1) 5 =
      (ErrorCode.OK, [TimerAccess.setCCR 5 TIM_Channel.CH1]) ∧
    ∀ (self : PWM) (ccr : ℕ), (setCCR self ccr).1 = ErrorCode.OK :=
  ⟨rfl, by decide, fun _ _ => rfl⟩

/-- C17. For every channel that is not one of `CH1..CH6`, every duty cycle and every period,
`setDutyCycle` returns the failure `ErrorCode::Fail` and makes no access to the timer: no compare
register is written and the result is never `OK`. -/
theorem setDutyCycle_unsupported_channel_fails (undef : ℚ → ℕ) (self : PWM) (duty_cycle : ℚ)
    (hch : supported self._channel = false) :
    setDutyCycle undef self duty_cycle = (ErrorCode.Fail, []) := by
  unfold setDutyCycle
  by_cases h1 : duty_cycle < 0
  · rw [if_pos h1]
  · rw [if_neg h1]
    by_cases h2 : self._tim.getPeriod = 0
    · simp [h2]
    · simp only [if_neg h2]
      cases hc : self._channel <;> simp_all [supported]

/-- Witness of C17: the channel value 7, a duty cycle of 50 % and a period of 1000. -/
theorem setDutyCycle_unsupported_channel_fails_witness :
    setDutyCycle F32.castWrapping (construct (TIM.succeeding 1000 0) (TIM_Channel.other 7)) 50 =
      (ErrorCode.Fail, []) :=
  setDutyCycle_unsupported_channel_fails F32.castWrapping
    (construct (TIM.succeeding 1000 0) (TIM_Channel.other 7)) 50 rfl

/-- C18. `Enable` calls the channel-start primitive once and `Disable` the channel-stop
primitive once, with no retry; each returns `OK` when its primitive reports success and `Fail`
exactly when it reports a failure.  With a start primitive that reports success, the registers
after a second `Enable` in a row are those after the first, the channel running; likewise for
`Disable` with the stop primitive, the channel stopped. -/
theorem Enable_Disable_idempotent (self : PWM) (r : TimerRegs) :
    (Enable self).2 = [TimerAccess.HAL_TIM_PWM_Start self._channel] ∧
    (Disable self).2 = [TimerAccess.HAL_TIM_PWM_Stop self._channel] ∧
    ((Enable self).1 = ErrorCode.Fail ↔ self._tim.HAL_TIM_PWM_Start self._channel = false) ∧
    ((Enable self).1 = ErrorCode.OK ↔ self._tim.HAL_TIM_PWM_Start self._channel = true) ∧
    ((Disable self).1 = ErrorCode.Fail ↔ self._tim.HAL_TIM_PWM_Stop self._channel = false) ∧
    ((Disable self).1 = ErrorCode.OK ↔ self._tim.HAL_TIM_PWM_Stop self._channel = true) ∧
    (self._tim.HAL_TIM_PWM_Start self._channel = true →
      ∃ r1, TimerRegs.run self._tim (Enable self).2 r = some r1 ∧
        r1.enabled self._channel = true ∧
        TimerRegs.run self._tim (Enable self).2 r1 = some r1) ∧
    (self._tim.HAL_TIM_PWM_Stop self._channel = true →
      ∃ r1, TimerRegs.run self._tim (Disable self).2 r = some r1 ∧
        r1.enabled self._channel = false ∧
        TimerRegs.run self._tim (Disable self).2 r1 = some r1) := by
  refine ⟨rfl, rfl, ?_, ?_, ?_, ?_, ?_, ?_⟩
  · unfold Enable
    cases self._tim.HAL_TIM_PWM_Start self._channel <;> simp
  · unfold Enable
    cases self._tim.HAL_TIM_PWM_Start self._channel <;> simp
  · unfold Disable
    cases self._tim.HAL_TIM_PWM_Stop self._channel <;> simp
  · unfold Disable
    cases self._tim.HAL_TIM_PWM_Stop self._channel <;> simp
  · intro h
    refine ⟨{ r with enabled := Function.update r.enabled self._channel true }, ?_, ?_, ?_⟩
    · simp [Enable, TimerRegs.run, TimerRegs.exec, h]
    · simp
    · simp [Enable, TimerRegs.run, TimerRegs.exec, h]
  · intro h
    refine ⟨{ r with enabled := Function.update r.enabled self._channel false }, ?_, ?_, ?_⟩
    · simp [Disable, TimerRegs.run, TimerRegs.exec, h]
    · simp
    · simp [Disable, TimerRegs.run, TimerRegs.exec, h]

/-- Witness of C18: `Enable` on `CH1` of a timer whose primitives succeed, from registers with
every channel stopped. -/
theorem Enable_Disable_idempotent_witness :
    (Enable (construct (TIM.succeeding 0 0) TIM_Channel.CH1)).1 = ErrorCode.OK ∧
    ∃ r1, TimerRegs.run (TIM.succeeding 0 0)
        (Enable (construct (TIM.succeeding 0 0) TIM_Channel.CH1)).2
        { PSC := 0, ARR := 0, CCR := fun _ => 0, enabled := fun _ => false } = some r1 ∧
      r1.enabled TIM_Channel.CH1 = true ∧
      TimerRegs.run (TIM.succeeding 0 0)
        (Enable (construct (TIM.succeeding 0 0) TIM_Channel.CH1)).2 r1 = some r1 :=
  ⟨(Enable_Disable_idempotent (construct (TIM.succeeding 0 0) TIM_Channel.CH1)
      { PSC := 0, ARR := 0, CCR := fun _ => 0, enabled := fun _ => false }).2.2.2.1.mpr rfl,
    (Enable_Disable_idempotent (construct (TIM.succeeding 0 0) TIM_Channel.CH1)
      { PSC := 0, ARR := 0, CCR := fun _ => 0, enabled := fun _ => false }).2.2.2.2.2.2.1 rfl⟩

/-- C19 (the code at the failing input). With the period `P = 2^32 - 1` on `CH1`,
`setDutyCycle(50)` writes `2^31`, and for `setDutyCycle(100)` the product
`(duty_cycle / 100) * period` is the `float` `2^32`, outside the range of `uint32_t`: where the
conversion keeps the low 32 bits the value written is 0, so the larger duty cycle writes the
smaller compare value, and the clamp `ccr > period` comes after the conversion and does not see
it. -/
theorem setDutyCycle_not_monotone :
    F32.representable 50 ∧ F32.representable 100 ∧ (50 : ℚ) ≤ 100 ∧
    F32.mul (F32.div 100 100) (F32.ofUInt32 4294967295) = 4294967296 ∧
    setDutyCycle F32.castWrapping (construct (TIM.succeeding 4294967295 0) TIM_Channel.CH1) 50 =
      (ErrorCode.OK, [TimerAccess.storeCCR TIM_Channel.CH1 2147483648]) ∧
    setDutyCycle F32.castWrapping (construct (TIM.succeeding 4294967295 0) TIM_Channel.CH1) 100 =
      (ErrorCode.OK, [TimerAccess.storeCCR TIM_Channel.CH1 0]) ∧
    ¬ 2147483648 ≤ 0 := by
  refine ⟨by decide!, by decide!, by norm_num, by decide!, by decide!, by decide!, by decide⟩

/-- C20. Whenever `setAutoPulseWidth` accepts a pair `(psc, arr)`, that is, whenever it makes
an access at all, its accesses are `setPSR(psc - 1)`, `setARR(arr)` and
`setCCR(arr / 2, channel)` in this order and its result is exactly the result of that `setCCR`:
the prescaler register holds `psc - 1` and the reload register `arr` before the compare write,
and if the `setCCR` reports a failure, `setAutoPulseWidth` returns that failure. -/
theorem setAutoPulseWidth_not_atomic (undef : ℚ → ℕ) (self : PWM) (us : ℚ) (r : TimerRegs)
    (h : (setAutoPulseWidth undef self us).2 ≠ []) :
    ∃ psc arr, 1 ≤ psc ∧ psc ≤ 65535 ∧ arr ≤ 65535 ∧
      setAutoPulseWidth undef self us =
        (self._tim.setCCR (arr / 2) self._channel,
          [TimerAccess.setPSR (psc - 1), TimerAccess.setARR arr,
           TimerAccess.setCCR (arr / 2) self._channel]) ∧
      (∃ r', TimerRegs.run self._tim [TimerAccess.setPSR (psc - 1), TimerAccess.setARR arr] r =
          some r' ∧ r'.PSC = psc - 1 ∧ r'.ARR = arr) ∧
      (self._tim.setCCR (arr / 2) self._channel ≠ ErrorCode.OK →
        (setAutoPulseWidth undef self us).1 = self._tim.setCCR (arr / 2) self._channel ∧
        (setAutoPulseWidth undef self us).1 ≠ ErrorCode.OK) := by
  rcases setAutoPulseWidth_cases undef self us with h1 | h1 | ⟨psc, arr, hp1, hp2, ha, _, heq⟩
  · rw [h1] at h
    exact absurd rfl h
  · rw [h1] at h
    exact absurd rfl h
  · refine ⟨psc, arr, hp1, hp2, ha, heq, ⟨{ r with PSC := psc - 1, ARR := arr }, rfl, rfl, rfl⟩, ?_⟩
    intro hne
    rw [heq]
    exact ⟨rfl, hne⟩

/-- Witness of C20: on a timer with a 1 MHz bus clock whose `setCCR` reports `Fail`,
`setAutoPulseWidth(100)` returns `Fail` after `setPSR(0)` and `setARR(100)`. -/
theorem setAutoPulseWidth_not_atomic_witness :
    setAutoPulseWidth F32.castWrapping
        (construct (TIM.failingSetCCR 0 1000000) TIM_Channel.CH1) 100 =
      (ErrorCode.Fail,
        [TimerAccess.setPSR 0, TimerAccess.setARR 100, TimerAccess.setCCR 50 TIM_Channel.CH1]) ∧
    ∃ psc arr, 1 ≤ psc ∧ psc ≤ 65535 ∧ arr ≤ 65535 ∧
      setAutoPulseWidth F32.castWrapping
          (construct (TIM.failingSetCCR 0 1000000) TIM_Channel.CH1) 100 =
        (ErrorCode.Fail,
          [TimerAccess.setPSR (psc - 1), TimerAccess.setARR arr,
           TimerAccess.setCCR (arr / 2) TIM_Channel.CH1]) := by
  refine ⟨by decide!, ?_⟩
  obtain ⟨psc, arr, h1, h2, h3, h4, _, _⟩ :=
    setAutoPulseWidth_not_atomic F32.castWrapping
        (construct (TIM.failingSetCCR 0 1000000) TIM_Channel.CH1) 100
      { PSC := 7, ARR := 7, CCR := fun _ => 0, enabled := fun _ => false } (by decide!)
  exact ⟨psc, arr, h1, h2, h3, h4⟩

end PWM
